import Mathlib

/-!
Verification of the datagrid core (nowsecure/datagrid-gtk3) against its
natural-language specification.  The Python 2 sources are shallowly embedded:

* `rank` models the full-text rank function of `db/sqlite.py`;
* `PyNum`/`normalizeTimestamp` model `utils/dateutils.py` (Python 2 `/` on two
  ints is floor division; floats are modelled as exact rationals — every
  arithmetic step asserted by a theorem below is exact in IEEE double as well);
* `PyVal` and the `timestamp*Transform` functions model
  `utils/transformations.py`, with `datetime.utcfromtimestamp` modelled by its
  documented domain (years 1..9999) and the proleptic-Gregorian calendar;
* `getWhereClause`, `loadModel` and friends model `SQLiteDataSource` of
  `db/sqlite.py` (the SQL engine itself is external; WHERE clauses are
  evaluated by a direct embedding of their documented comparison semantics);
* `CacheState` and `getImage` model `ImageCacheManager` of
  `utils/imageutils.py`;
* `addRows` models `DataGridModel.add_rows` of `ui/grid.py`.
-/

namespace Datagrid

/-! ## Generic helpers -/

/-- Insertion into a Python dict modelled as an association list: an existing
key is overwritten in place, a new key is appended at the end. -/
def assocSet {α β : Type} [DecidableEq α] (k : α) (v : β) :
    List (α × β) → List (α × β)
  | [] => [(k, v)]
  | (k', v') :: rest =>
      if k' = k then (k, v) :: rest else (k', v') :: assocSet k v rest

/-- Lookup in an association list (Python dict `.get`). -/
def assocFind {α β : Type} [DecidableEq α] (k : α) :
    List (α × β) → Option β
  | [] => none
  | (k', v') :: rest => if k' = k then some v' else assocFind k rest

/-- Test whether `pat` occurs as a contiguous substring of `l`
(Python's `pat in s` on strings, on the underlying character lists). -/
def infixOf (pat : List Char) : List Char → Bool
  | [] => pat.isEmpty
  | c :: rest => pat.isPrefixOf (c :: rest) || infixOf pat rest

/-- String containment (Python `pat in s`). -/
def strContains (s pat : String) : Bool :=
  infixOf pat.toList s.toList

/-! ## Full-text `rank` (db/sqlite.py)

```python
def rank(matchinfo):
    matchinfo = struct.unpack('I' * (len(matchinfo) / 4), matchinfo)
    iterator = iter(matchinfo[2:])
    return sum(x[0] for x in zip(iterator, iterator, iterator) if x[1])
```

The byte string is unpacked into 32-bit unsigned integers; we model the
function on the already-unpacked integer sequence (`struct.unpack` is a
bijection on well-formed input).  `zip(it, it, it)` over three aliases of one
iterator groups consecutive elements into triples, dropping an incomplete
tail; `if x[1]` keeps only triples whose second component is truthy. -/

/-- Group a list into consecutive triples, dropping an incomplete tail
(the semantics of `zip(it, it, it)` over a single shared iterator). -/
def tripleChunks : List Nat → List (Nat × Nat × Nat)
  | a :: b :: c :: rest => (a, b, c) :: tripleChunks rest
  | _ => []

/-- Model of `rank` on the unpacked 32-bit integer sequence. -/
def rank (matchinfo : List Nat) : Nat :=
  (((tripleChunks (matchinfo.drop 2)).filter
      (fun t => t.2.1 != 0)).map (fun t => t.1)).sum

/-- Spec-worded version of the rank function (for the refinement comparison):
"the sum of every third value starting at offset 2". -/
def sumEveryThird : List Nat → Nat
  | [] => 0
  | [a] => a
  | [a, _] => a
  | a :: _ :: _ :: rest => a + sumEveryThird rest

/-- Spec-worded rank: unpack and sum every third value starting at offset 2,
with no further condition. -/
def rankSpec (matchinfo : List Nat) : Nat :=
  sumEveryThird (matchinfo.drop 2)

/-! ## Timestamp normalization (`utils/dateutils.py`)

The module is Python 2: `/` between two ints is *floor* division, and between
a float and an int it is true division.  Floats are modelled as exact
rationals; every float computation asserted by a theorem below is exact in
IEEE double arithmetic as well (only additions of `2440587.5` to small
integers and exactly-representable products occur there). -/

/-- Python 2 numeric value: an `int`/`long`, or a `float` (modelled as an
exact rational). -/
inductive PyNum where
  | int (z : Int)
  | float (q : Rat)
  deriving DecidableEq, Repr

/-- Seconds in a day (`_SECONDS_IN_A_DAY`). -/
def SECONDS_IN_A_DAY : Int := 86400

/-- Apple epoch offset in seconds (`_APPLE_TIMESTAMP_OFFSET`), 2001-01-01. -/
def APPLE_TIMESTAMP_OFFSET : Int := 978307200

/-- WebKit epoch offset in seconds (`_WEBKIT_TIMESTAMP_OFFSET`), 1601-01-01. -/
def WEBKIT_TIMESTAMP_OFFSET : Int := 11644473600

/-- Unix epoch zero point in Julian days
(`_UNIX_ZERO_POINT_IN_JULIAN_DAYS = 2440587.5`). -/
def UNIX_ZERO_POINT_IN_JULIAN_DAYS : Rat := (2440587.5 : Rat)

/-- Python 2 `v / n` for an int `n`: floor division on ints, true division on
floats. -/
def PyNum.divInt (v : PyNum) (n : Int) : PyNum :=
  match v with
  | .int z => .int (Int.fdiv z n)
  | .float q => .float (q / (n : Rat))

/-- Python 2 `v * n` for an int `n`. -/
def PyNum.mulInt (v : PyNum) (n : Int) : PyNum :=
  match v with
  | .int z => .int (z * n)
  | .float q => .float (q * (n : Rat))

/-- Python 2 `v + n` for an int `n`. -/
def PyNum.addInt (v : PyNum) (n : Int) : PyNum :=
  match v with
  | .int z => .int (z + n)
  | .float q => .float (q + (n : Rat))

/-- Python 2 `v - n` for an int `n`. -/
def PyNum.subInt (v : PyNum) (n : Int) : PyNum :=
  match v with
  | .int z => .int (z - n)
  | .float q => .float (q - (n : Rat))

/-- Python 2 `v + r` for a float `r` (always yields a float). -/
def PyNum.addRat (v : PyNum) (r : Rat) : PyNum :=
  match v with
  | .int z => .float ((z : Rat) + r)
  | .float q => .float (q + r)

/-- Python 2 `v - r` for a float `r` (always yields a float). -/
def PyNum.subRat (v : PyNum) (r : Rat) : PyNum :=
  match v with
  | .int z => .float ((z : Rat) - r)
  | .float q => .float (q - r)

/-- Numeric value of a `PyNum` (Python `==` compares ints and floats
numerically). -/
def PyNum.toRat : PyNum → Rat
  | .int z => (z : Rat)
  | .float q => q

/-- Python `==` on numbers. -/
def PyNum.pyEq (a b : PyNum) : Bool :=
  a.toRat == b.toRat

/-- Keys of the `_normalizations` dict. -/
def supported_timestamp_formats : List String :=
  ["timestamp", "timestamp_unix",
   "timestamp_ms", "timestamp_unix_ms",
   "timestamp_Ms", "timestamp_unix_Ms",
   "timestamp_apple", "timestamp_ios",
   "timestamp_webkit",
   "timestamp_julian", "timestamp_julian_date"]

/-- Model of `normalize_timestamp(value, timestamp_format, inverse)`: pick the
forward or inverse normalization from the `_normalizations` table; an
unsupported format is logged and the value returned unchanged. -/
def normalize_timestamp (v : PyNum) (fmt : String) (inverse : Bool) : PyNum :=
  if fmt = "timestamp" ∨ fmt = "timestamp_unix" then
    v
  else if fmt = "timestamp_ms" ∨ fmt = "timestamp_unix_ms" then
    if inverse then v.mulInt 1000 else v.divInt 1000
  else if fmt = "timestamp_Ms" ∨ fmt = "timestamp_unix_Ms" then
    if inverse then v.mulInt 1000000 else v.divInt 1000000
  else if fmt = "timestamp_apple" ∨ fmt = "timestamp_ios" then
    if inverse then v.subInt APPLE_TIMESTAMP_OFFSET
    else v.addInt APPLE_TIMESTAMP_OFFSET
  else if fmt = "timestamp_webkit" then
    if inverse then (v.addInt WEBKIT_TIMESTAMP_OFFSET).mulInt 1000000
    else (v.divInt 1000000).subInt WEBKIT_TIMESTAMP_OFFSET
  else if fmt = "timestamp_julian" ∨ fmt = "timestamp_julian_date" then
    if inverse then (v.divInt SECONDS_IN_A_DAY).addRat UNIX_ZERO_POINT_IN_JULIAN_DAYS
    else (v.subRat UNIX_ZERO_POINT_IN_JULIAN_DAYS).mulInt SECONDS_IN_A_DAY
  else
    v

/-! ## Timestamp display transforms (`utils/transformations.py`)

`datetime.datetime.utcfromtimestamp` is modelled by its documented behaviour:
it succeeds exactly when the resulting moment lies in years 1..9999 of the
proleptic Gregorian calendar (raising `ValueError` outside that range and
`TypeError` on non-numbers), and formatting follows `datetime.isoformat()`. -/

/-- Python 2 value as seen by the display transforms. -/
inductive PyVal where
  | none
  | int (z : Int)
  | float (q : Rat)
  | str (s : String)
  deriving DecidableEq, Repr

/-- Python exception kind relevant to the transforms. -/
inductive PyErr where
  | typeError
  | valueError
  | overflowError
  deriving DecidableEq, Repr

/-- Seconds from 0001-01-01T00:00:00 to the Unix epoch, negated: the least
timestamp `datetime.utcfromtimestamp` accepts. -/
def MIN_TS : Int := -62135596800

/-- Timestamp of 9999-12-31T23:59:59: the greatest whole-second timestamp
`datetime.utcfromtimestamp` accepts. -/
def MAX_TS : Int := 253402300799

/-- Round half away from zero (CPython's float-to-microseconds rounding). -/
def roundHalfAway (q : Rat) : Int :=
  if 0 ≤ q then Rat.floor (q + 1/2) else -Rat.floor (-q + 1/2)

/-- Proleptic-Gregorian civil date from days since the Unix epoch
(standard era-based algorithm): returns `(year, month, day)`. -/
def civilFromDays (z0 : Int) : Int × Nat × Nat :=
  let z := z0 + 719468
  let era := Int.fdiv z 146097
  let doe := (z - era * 146097).toNat
  let yoe := (doe - doe / 1460 + doe / 36524 - doe / 146096) / 365
  let y := (yoe : Int) + era * 400
  let doy := doe - (365 * yoe + yoe / 4 - yoe / 100)
  let mp := (5 * doy + 2) / 153
  let d := doy - (153 * mp + 2) / 5 + 1
  let m := if mp < 10 then mp + 3 else mp - 9
  (if m ≤ 2 then y + 1 else y, m, d)

/-- Left-pad the decimal representation of `n` with zeros to `width` digits. -/
def padNum (width : Nat) (n : Nat) : String :=
  let s := toString n
  if s.length < width then
    String.mk (List.replicate (width - s.length) '0') ++ s
  else s

/-- ISO 8601 date part `YYYY-MM-DD`. -/
def isoDate (y : Int) (m d : Nat) : String :=
  padNum 4 y.toNat ++ "-" ++ padNum 2 m ++ "-" ++ padNum 2 d

/-- ISO 8601 time part `HH:MM:SS[.ffffff]` from seconds-of-day and
microseconds (`datetime.time.isoformat`). -/
def isoTime (sod : Nat) (us : Nat) : String :=
  padNum 2 (sod / 3600) ++ ":" ++ padNum 2 (sod % 3600 / 60) ++ ":" ++
    padNum 2 (sod % 60) ++ (if us ≠ 0 then "." ++ padNum 6 us else "")

/-- Model of `datetime.utcfromtimestamp` on a number: total microseconds since
the epoch when the result is inside the `datetime` range, `ValueError`
otherwise. -/
def utcfromtimestamp (t : Rat) : Except PyErr Int :=
  let usTotal := roundHalfAway (t * 1000000)
  if MIN_TS * 1000000 ≤ usTotal ∧ usTotal ≤ MAX_TS * 1000000 + 999999 then
    .ok usTotal
  else
    .error .valueError

/-- Format microseconds-since-epoch as `datetime.isoformat()` (or
`date.isoformat()` when `dateOnly`). -/
def formatUsTotal (usTotal : Int) (dateOnly : Bool) : String :=
  let secs := Int.fdiv usTotal 1000000
  let us := (usTotal - secs * 1000000).toNat
  let days := Int.fdiv secs 86400
  let sod := (secs - days * 86400).toNat
  let ymd := civilFromDays days
  if dateOnly then isoDate ymd.1 ymd.2.1 ymd.2.2
  else isoDate ymd.1 ymd.2.1 ymd.2.2 ++ "T" ++ isoTime sod us

/-- Python `str(value)` for the values the transforms fall back on.  (For a
non-integral float Python's repr differs from this rendering; no theorem
depends on that case.) -/
def pyStr : PyVal → String
  | .none => "None"
  | .int z => toString z
  | .float q => if q.den = 1 then toString q.num ++ ".0"
                else toString q.num ++ "/" ++ toString q.den
  | .str s => s

/-- Model of `timestamp_transform(value, date_only)`:

```python
if value is None:
    return ''
try:
    dt = datetime.datetime.utcfromtimestamp(value)
except (TypeError, ValueError):
    return str(value)
if date_only:
    dt = dt.date()
return dt.isoformat()
``` -/
def timestamp_transform (v : PyVal) (dateOnly : Bool := false) :
    Except PyErr String :=
  match v with
  | .none => .ok ""
  | .str s => .ok s
  | .int z =>
      -- for an int the microsecond scaling is exact, so `utcfromtimestamp`
      -- succeeds exactly on `MIN_TS ≤ z ≤ MAX_TS`
      if MIN_TS ≤ z ∧ z ≤ MAX_TS then .ok (formatUsTotal (z * 1000000) dateOnly)
      else .ok (toString z)
  | .float q =>
      match utcfromtimestamp q with
      | .ok usTotal => .ok (formatUsTotal usTotal dateOnly)
      | .error _ => .ok (pyStr (.float q))

/-- Python 2 `value / n` on a transform input: floor division for ints, true
division for floats, `TypeError` otherwise (raised before any handler). -/
def pyDiv (v : PyVal) (n : Int) : Except PyErr PyVal :=
  match v with
  | .int z => .ok (.int (Int.fdiv z n))
  | .float q => .ok (.float (q / (n : Rat)))
  | .str _ => .error .typeError
  | .none => .error .typeError

/-- Python 2 `value + n` for an int `n` (`TypeError` on a str or None). -/
def pyAddInt (v : PyVal) (n : Int) : Except PyErr PyVal :=
  match v with
  | .int z => .ok (.int (z + n))
  | .float q => .ok (.float (q + (n : Rat)))
  | .str _ => .error .typeError
  | .none => .error .typeError

/-- Python 2 `value - n` for an int `n` (`TypeError` on a str or None). -/
def pySubInt (v : PyVal) (n : Int) : Except PyErr PyVal :=
  match v with
  | .int z => .ok (.int (z - n))
  | .float q => .ok (.float (q - (n : Rat)))
  | .str _ => .error .typeError
  | .none => .error .typeError

/-- Model of `timestamp_ms_transform`: `value / 10**3` happens *before* the
guarded core, so a wrong-typed value raises `TypeError` uncaught. -/
def timestamp_ms_transform (v : PyVal) : Except PyErr String :=
  match v with
  | .none => .ok ""
  | v => do timestamp_transform (← pyDiv v 1000)

/-- Model of `timestamp_Ms_transform` (microseconds). -/
def timestamp_Ms_transform (v : PyVal) : Except PyErr String :=
  match v with
  | .none => .ok ""
  | v => do timestamp_transform (← pyDiv v 1000000)

/-- Model of `timestamp_apple_transform`: `value + _APPLE_TIMESTAMP_OFFSET`
before the guarded core. -/
def timestamp_apple_transform (v : PyVal) : Except PyErr String :=
  match v with
  | .none => .ok ""
  | v => do timestamp_transform (← pyAddInt v APPLE_TIMESTAMP_OFFSET)

/-- Model of `timestamp_webkit_transform`:
`value / 10**6 - _WEBKIT_TIMESTAMP_OFFSET` before the guarded core. -/
def timestamp_webkit_transform (v : PyVal) : Except PyErr String :=
  match v with
  | .none => .ok ""
  | v => do
      let d ← pyDiv v 1000000
      timestamp_transform (← pySubInt d WEBKIT_TIMESTAMP_OFFSET)

/-- Epoch adjustment of `timestamp_julian_transform`:
`(value - 2440587.5) * _SECONDS_IN_A_DAY` (always a float; `TypeError` on a
str or None, raised before the guarded core). -/
def julianPre (v : PyVal) : Except PyErr PyVal :=
  match v with
  | .int z =>
      .ok (.float (((z : Rat) - UNIX_ZERO_POINT_IN_JULIAN_DAYS) * 86400))
  | .float q =>
      .ok (.float ((q - UNIX_ZERO_POINT_IN_JULIAN_DAYS) * 86400))
  | .str _ => .error .typeError
  | .none => .error .typeError

/-- Model of `timestamp_julian_transform(value, date_only)`. -/
def timestamp_julian_transform (v : PyVal) (dateOnly : Bool := false) :
    Except PyErr String :=
  match v with
  | .none => .ok ""
  | v => do timestamp_transform (← julianPre v) dateOnly

/-- Model of `timestamp_julian_date_transform`. -/
def timestamp_julian_date_transform (v : PyVal) : Except PyErr String :=
  match v with
  | .none => .ok ""
  | v => timestamp_julian_transform v true

/-- Greatest whole-second value `datetime.min + timedelta(0, value)` accepts
(seconds from 0001-01-01T00:00:00 to 9999-12-31T23:59:59). -/
def MAX_MIDNIGHT : Int := 3652058 * 86400 + 86399

/-- Model of `timestamp_midnight_transform`: `datetime.min + timedelta(0,
value)` has *no* exception handler, so a wrong-typed value raises `TypeError`
and an out-of-range value raises `OverflowError`, both uncaught. -/
def timestamp_midnight_transform (v : PyVal) : Except PyErr String :=
  match v with
  | .none => .ok ""
  | .int z =>
      if 0 ≤ z ∧ z ≤ MAX_MIDNIGHT then
        .ok (isoTime ((z % 86400).toNat) 0)
      else .error .overflowError
  | .float q =>
      let usTotal := roundHalfAway (q * 1000000)
      if 0 ≤ usTotal ∧ usTotal ≤ MAX_MIDNIGHT * 1000000 + 999999 then
        .ok (isoTime ((Int.fdiv usTotal 1000000 % 86400).toNat)
              ((usTotal % 1000000).toNat))
      else .error .overflowError
  | .str _ => .error .typeError

/-- Model of `timestamp_midnight_ms_transform` (`value / 10**3` first). -/
def timestamp_midnight_ms_transform (v : PyVal) : Except PyErr String :=
  match v with
  | .none => .ok ""
  | v => do timestamp_midnight_transform (← pyDiv v 1000)

/-- Model of `timestamp_midnight_Ms_transform` (`value / 10**6` first). -/
def timestamp_midnight_Ms_transform (v : PyVal) : Except PyErr String :=
  match v with
  | .none => .ok ""
  | v => do timestamp_midnight_transform (← pyDiv v 1000000)

/-- The registered timestamp transforms, in registration order (the
`@transformer(...)` decorators of `utils/transformations.py`). -/
def timestampTransformers : List (String × (PyVal → Except PyErr String)) :=
  [("timestamp", fun v => timestamp_transform v),
   ("timestamp_unix", fun v => timestamp_transform v),
   ("timestamp_ms", timestamp_ms_transform),
   ("timestamp_unix_ms", timestamp_ms_transform),
   ("timestamp_Ms", timestamp_Ms_transform),
   ("timestamp_unix_Ms", timestamp_Ms_transform),
   ("timestamp_ios", timestamp_apple_transform),
   ("timestamp_apple", timestamp_apple_transform),
   ("timestamp_webkit", timestamp_webkit_transform),
   ("timestamp_julian", fun v => timestamp_julian_transform v),
   ("timestamp_julian_date", timestamp_julian_date_transform),
   ("timestamp_midnight", timestamp_midnight_transform),
   ("timestamp_midnight_ms", timestamp_midnight_ms_transform),
   ("timestamp_midnight_Ms", timestamp_midnight_Ms_transform)]

/-! ## SQLite data source (`db/sqlite.py`)

Rows are modelled with their well-known column roles made explicit (`id`,
`parent`, the flat column's non-NULL-ness) plus a generic bag of further
columns.  The SQL engine is external: WHERE clauses built by
`_get_where_clause` are embedded as syntax (`Clause`) plus a direct
evaluation of their documented comparison semantics, and `load` takes the
compiled clause as a predicate. -/

/-- Stored SQL value. -/
inductive SVal where
  | null
  | int (z : Int)
  | str (s : String)
  deriving DecidableEq, Repr

/-- A database row with the data source's special column roles. -/
structure TRow where
  id : String
  parent : Option String
  flatNonNull : Bool
  cols : List (String × SVal)
  deriving DecidableEq, Repr

/-- Value of a named column of a row (NULL when absent). -/
def TRow.colVal (r : TRow) (c : String) : SVal :=
  (assocFind c r.cols).getD .null

/-- Parameter of one filter entry (`value['param']`). -/
inductive FParam where
  | num (n : Int)
  | pair (a b : Int)
  | str (s : String)
  deriving DecidableEq, Repr

/-- Python truthiness of a filter parameter. -/
def FParam.truthy : FParam → Bool
  | .num n => n != 0
  | .pair _ _ => true
  | .str s => s ≠ ""

/-- Display string of a filter parameter (for `%...%` LIKE patterns). -/
def FParam.text : FParam → String
  | .num n => toString n
  | .pair a b => toString a ++ "," ++ toString b
  | .str s => s

/-- One filter entry of the where-params dict. -/
structure FilterSpec where
  op : String
  param : FParam
  deriving DecidableEq, Repr

/-- A compiled WHERE clause, the output of `_get_where_clause`. -/
inductive Clause where
  | cmp (op : String) (col : String) (p : FParam)
  | between (col : String) (lo hi : Int)
  | ftsMatch (s : String)
  | likeOr (s : String)
  deriving DecidableEq, Repr

/-- Keys of `_OPERATOR_MAPPER`. -/
def operatorMapperKeys : List String :=
  ["is", "=", "!=", "<", "<=", ">", ">="]

/-- Model of `SQLiteDataSource._get_where_clause`: each entry becomes one
clause (conjoined with AND); the special key `search` becomes a full-text
MATCH when a search table exists, else an OR of LIKEs, and contributes
nothing when its parameter is falsy; `range` becomes a BETWEEN; any other
operator is looked up in `_OPERATOR_MAPPER`, raising `KeyError` — before any
SQL query is executed — when absent. -/
def getWhereClause (searchTablePresent : Bool) :
    List (String × FilterSpec) → Except String (List Clause)
  | [] => .ok []
  | (k, f) :: rest =>
      if k = "search" then
        if f.param.truthy && searchTablePresent then
          match getWhereClause searchTablePresent rest with
          | .error e => .error e
          | .ok cls => .ok (Clause.ftsMatch f.param.text :: cls)
        else if f.param.truthy then
          match getWhereClause searchTablePresent rest with
          | .error e => .error e
          | .ok cls => .ok (Clause.likeOr f.param.text :: cls)
        else
          getWhereClause searchTablePresent rest
      else if f.op = "range" then
        match f.param with
        | .pair a b =>
            match getWhereClause searchTablePresent rest with
            | .error e => .error e
            | .ok cls => .ok (Clause.between k a b :: cls)
        | _ => .error "TypeError: range parameter is not a 2-tuple"
      else if f.op ∈ operatorMapperKeys then
        match getWhereClause searchTablePresent rest with
        | .error e => .error e
        | .ok cls => .ok (Clause.cmp f.op k f.param :: cls)
      else
        .error ("KeyError: " ++ f.op)

/-- SQL comparison of a stored value against a filter parameter (NULL
compares false; mismatched types compare false). -/
def evalCmp (op : String) (v : SVal) (p : FParam) : Bool :=
  match v, p with
  | .int z, .num n =>
      if op = "is" ∨ op = "=" then z == n
      else if op = "!=" then z != n
      else if op = "<" then decide (z < n)
      else if op = "<=" then decide (z ≤ n)
      else if op = ">" then decide (n < z)
      else if op = ">=" then decide (n ≤ z)
      else false
  | .str s, .str t =>
      if op = "is" ∨ op = "=" then s == t
      else if op = "!=" then s != t
      else false
  | _, _ => false

/-- Evaluation of one compiled clause against a row.  Full-text MATCH is
performed by SQLite's FTS engine (external); it is embedded as a substring
test, which no claim depends on. -/
def evalClause (r : TRow) : Clause → Bool
  | .cmp op col p => evalCmp op (r.colVal col) p
  | .between col lo hi =>
      match r.colVal col with
      | .int z => decide (lo ≤ z ∧ z ≤ hi)
      | _ => false
  | .ftsMatch s =>
      r.cols.any (fun cv =>
        match cv.2 with
        | .str t => strContains t s
        | _ => false)
  | .likeOr s =>
      r.cols.any (fun cv =>
        match cv.2 with
        | .str t => strContains t s
        | .int z => strContains (toString z) s
        | .null => false)

/-- AND-conjunction of compiled clauses as a row predicate. -/
def evalClauses (cls : List Clause) (r : TRow) : Bool :=
  cls.all (evalClause r)

/-- The data source's configuration relevant to loading. -/
structure DataSourceM where
  db : List TRow
  maxRecs : Nat
  hasParentCol : Bool
  searchTablePresent : Bool

/-- The correlated `COUNT(*)` subquery used for a node's child count in lazy
hierarchical mode (`CHILDREN_LEN_COLUMN is None`). -/
def childCount (db : List TRow) (id : String) : Nat :=
  (db.filter (fun r => r.parent == some id)).length

/-- An in-memory `Node` holding one loaded row, its materialized children and
its `children_len`. -/
inductive LNode where
  | mk (row : TRow) (kids : List LNode) (clen : Nat)
  deriving Repr

/-- Row of a node. -/
def LNode.row : LNode → TRow
  | .mk r _ _ => r

/-- Materialized children of a node. -/
def LNode.kids : LNode → List LNode
  | .mk _ ks _ => ks

/-- The `children_len` attribute of a node. -/
def LNode.clen : LNode → Nat
  | .mk _ _ c => c

/-- Entry of the filtered tree loader's `node_mapper`: the node's row, the
ids of its attached children, and its `children_len`. -/
structure NodeData where
  row : TRow
  kids : List String
  clen : Nat
  deriving DecidableEq, Repr

/-- State of `_load_tree_rows` in filtered (eager) mode: the pending
`children` dict (parent id, possibly NULL, mapped to the child node ids not
yet attached), the `node_mapper`, and the number of `load_rows` calls
(SQL SELECTs) so far. -/
structure TreeLoadState where
  children : List (Option String × List String)
  mapper : List (String × NodeData)
  loads : Nat
  deriving Repr

/-- Append `id` to `children.setdefault(p, [])`. -/
def childrenAdd (p : Option String) (id : String) :
    List (Option String × List String) → List (Option String × List String)
  | [] => [(p, [id])]
  | (p', l) :: rest =>
      if p' = p then (p', l ++ [id]) :: rest
      else (p', l) :: childrenAdd p id rest

/-- Body of `load_rows`: each selected row not already in `node_mapper`
becomes a fresh node appended to `children[row.parent]`. -/
def loadRowsAux : List TRow → TreeLoadState → TreeLoadState
  | [], st => st
  | r :: rest, st =>
      if (assocFind r.id st.mapper).isSome then loadRowsAux rest st
      else
        loadRowsAux rest
          { children := childrenAdd r.parent r.id st.children,
            mapper := st.mapper ++ [(r.id, ⟨r, [], 0⟩)],
            loads := st.loads }

/-- One `load_rows(where_)` call: one SELECT over the rows matching `p`. -/
def loadRowsStep (db : List TRow) (p : TRow → Bool) (st : TreeLoadState) :
    TreeLoadState :=
  loadRowsAux (db.filter p) { st with loads := st.loads + 1 }

/-- One pass over a snapshot of `children.items()`: entries whose parent is
in `node_mapper` are attached there (`node.extend(c_list)`,
`node.children_len = len(node)`) and removed; parents not yet loaded are
collected.  Returns the remaining entries, the updated mapper and the
`parents_to_load` list. -/
def processEntries :
    List (Option String × List String) → List (String × NodeData) →
    List (Option String × List String) × List (String × NodeData) × List String
  | [], m => ([], m, [])
  | (Option.none, l) :: rest, m =>
      let (c, m', t) := processEntries rest m
      ((Option.none, l) :: c, m', t)
  | (some p, l) :: rest, m =>
      match assocFind p m with
      | some nd =>
          let (c, m', t) := processEntries rest
            (assocSet p ⟨nd.row, nd.kids ++ l, nd.kids.length + l.length⟩ m)
          (c, m', t)
      | Option.none =>
          let (c, m', t) := processEntries rest m
          ((some p, l) :: c, m', t ++ [p])

/-- One iteration of the `while children.keys() != [None]` loop. -/
def treeIterate (db : List TRow) (st : TreeLoadState) : TreeLoadState :=
  let (c, m, toLoad) := processEntries st.children st.mapper
  let st' : TreeLoadState := ⟨c, m, st.loads⟩
  if toLoad.isEmpty then st'
  else loadRowsStep db (fun r => toLoad.contains r.id) st'

/-- The parent-resolution loop, with fuel (the source loops forever on a
cyclic or dangling parent chain; `none` models non-termination). -/
def treeLoop (db : List TRow) : Nat → TreeLoadState → Option TreeLoadState
  | 0, _ => none
  | fuel + 1, st =>
      if st.children.map Prod.fst = [Option.none] then some st
      else treeLoop db fuel (treeIterate db st)

/-- Model of the filtered branch of `_load_tree_rows`: load all matching
rows, then resolve missing ancestors level by level; returns the ids of the
root-level nodes (`children[None]`) and the final state. -/
def loadTreeFiltered (db : List TRow) (p : TRow → Bool) (fuel : Nat) :
    Option (List String × TreeLoadState) :=
  let st0 := loadRowsStep db p ⟨[], [], 0⟩
  if st0.children.isEmpty then some ([], st0)
  else
    match treeLoop db fuel st0 with
    | none => none
    | some st => some ((assocFind Option.none st.children).getD [], st)

/-- Materialize nodes from the mapper into `LNode` trees (fuel-bounded; the
mapper of a successful run is acyclic so enough fuel always exists). -/
def buildForest (m : List (String × NodeData)) :
    Nat → List String → Option (List LNode)
  | 0, _ => none
  | _ + 1, [] => some []
  | fuel + 1, i :: rest =>
      match assocFind i m with
      | none => none
      | some nd =>
          match buildForest m fuel nd.kids with
          | none => none
          | some ks =>
              match buildForest m fuel rest with
              | none => none
              | some ns => some (LNode.mk nd.row ks nd.clen :: ns)

/-- The WHERE clause `load` actually uses: in flat mode the designated flat
column must additionally be non-NULL. -/
def effectiveWhere (pred : Option (TRow → Bool)) (flat : Bool) :
    Option (TRow → Bool) :=
  if flat then
    some (fun r => (match pred with | some p => p r | none => true)
                   && r.flatNonNull)
  else pred

/-- Apply an optional WHERE predicate to the table. -/
def applyWhere (db : List TRow) (pred : Option (TRow → Bool)) : List TRow :=
  match pred with
  | none => db
  | some p => db.filter p

/-- Result of one `load(params)` call: the root `Node`'s children and
`children_len`, the data source's `total_recs` afterwards, and how many
COUNT and SELECT queries the call issued. -/
structure LoadOut where
  rows : List LNode
  rootClen : Nat
  totalRecs : Nat
  countQueries : Nat
  selectQueries : Nat
  deriving Repr

/-- Model of `SQLiteDataSource.load`:

* `offset = page * MAX_RECS`; when `page > 0` and `offset >= total_recs` the
  call short-circuits to an empty root `Node` without touching the database;
* on `page == 0` `total_recs` is recomputed by a `COUNT(*)` with the same
  WHERE clause;
* hierarchical sources load lazily (direct children of `parent_id`,
  annotated with the correlated child count) without a WHERE clause, and
  eagerly via the parent-resolution algorithm with one;
* otherwise a flat page of at most `MAX_RECS` rows is selected;
* the root `Node`'s `children_len` is set to the number of loaded rows. -/
def loadModel (ds : DataSourceM) (totalRecs : Nat) (pred : Option (TRow → Bool))
    (page : Nat) (parentId : Option String) (flat : Bool) (fuel : Nat) :
    Option LoadOut :=
  let offset := page * ds.maxRecs
  if 0 < page ∧ totalRecs ≤ offset then
    some ⟨[], 0, totalRecs, 0, 0⟩
  else
    let wpred := effectiveWhere pred flat
    let filtered := applyWhere ds.db wpred
    let tr := if page = 0 then filtered.length else totalRecs
    let cq := if page = 0 then 1 else 0
    if ds.hasParentCol && !flat then
      match pred with
      | some p =>
          match loadTreeFiltered ds.db p fuel with
          | none => none
          | some (rootIds, st) =>
              match buildForest st.mapper fuel rootIds with
              | none => none
              | some ns => some ⟨ns, ns.length, tr, cq, st.loads⟩
      | none =>
          let rows := (ds.db.filter (fun r => r.parent == parentId)).map
            (fun r => LNode.mk r [] (childCount ds.db r.id))
          some ⟨rows, rows.length, tr, cq, 1⟩
    else
      let rows := ((filtered.drop offset).take ds.maxRecs).map
        (fun r => LNode.mk r [] 0)
      some ⟨rows, rows.length, tr, cq, 1⟩

/-- Model of `load` including WHERE-clause construction from raw
where-params: a malformed filter operator aborts before any query. -/
def loadChecked (ds : DataSourceM) (totalRecs : Nat)
    (whereParams : Option (List (String × FilterSpec))) (page : Nat)
    (parentId : Option String) (flat : Bool) (fuel : Nat) :
    Except String (Option LoadOut) :=
  match whereParams with
  | none => .ok (loadModel ds totalRecs none page parentId flat fuel)
  | some ps =>
      match getWhereClause ds.searchTablePresent ps with
      | .error e => .error e
      | .ok cls =>
          .ok (loadModel ds totalRecs (some (evalClauses cls)) page parentId
                flat fuel)

/-- Model of `get_all_record_ids`: WHERE-clause construction happens before
the SELECT is executed. -/
def get_all_record_ids (ds : DataSourceM)
    (whereParams : Option (List (String × FilterSpec))) :
    Except String (List String) :=
  match whereParams with
  | none => .ok ((applyWhere ds.db none).map (fun r => r.id))
  | some ps =>
      match getWhereClause ds.searchTablePresent ps with
      | .error e => .error e
      | .ok cls =>
          .ok ((applyWhere ds.db (some (evalClauses cls))).map (fun r => r.id))

/-! ## DataGridModel (`ui/grid.py`) -/

/-- Model of `Node.is_children_loaded` (`db/__init__.py`, non-recursive
form): children are loaded when `len(node) == node.children_len`. -/
def is_children_loaded (loadedLen clen : Nat) : Bool :=
  loadedLen == clen

/-- A child node as tracked by the grid model: row id, `children_len`, and
tree path. -/
structure GNode where
  id : String
  clen : Nat
  path : List Nat
  deriving DecidableEq, Repr

/-- The node `add_rows` attaches to: the root (`idOpt = none`) or a tree
node, with its path, `children_len` and already-materialized children. -/
structure GParent where
  idOpt : Option String
  path : List Nat
  clen : Nat
  kids : List GNode
  deriving DecidableEq, Repr

/-- Model of `DataGridModel.add_rows(parent_node)` acting on its target node:

* in hierarchical non-flat mode a call without a parent node returns False;
* for root pagination the path offset is `rows[-1].path[-1] + 1` and the page
  of `active_params` is incremented before loading (`none` models the
  `IndexError`/`TypeError` Python raises on an empty root or unset path);
* for a tree node `parent_id` is the node's id and the path offset is 0;
* when the load returns no rows the call returns False;
* each loaded row is appended with path `parent_row.path + (offset + i,)`,
  and in non-tree mode `parent_row.children_len` is incremented per row.

Returns the updated target node, whether rows were added, and the page of
`active_params` afterwards. -/
def addRows (ds : DataSourceM) (totalRecs : Nat) (pred : Option (TRow → Bool))
    (page : Nat) (flat : Bool) (root : GParent) (parentNode : Option GParent)
    (fuel : Nat) : Option (GParent × Bool × Nat) :=
  let isTree := ds.hasParentCol && !flat
  if isTree && parentNode.isNone then some (root, false, page)
  else
    match parentNode with
    | none =>
        match root.kids.getLast? with
        | none => none
        | some lastK =>
            match lastK.path.getLast? with
            | none => none
            | some lastIdx =>
                let pathOffset := lastIdx + 1
                let page' := page + 1
                match loadModel ds totalRecs pred page' none flat fuel with
                | none => none
                | some out =>
                    if out.rows.isEmpty then some (root, false, page')
                    else
                      let newKids := out.rows.enum.map (fun ir =>
                        GNode.mk ir.2.row.id ir.2.clen
                          (root.path ++ [pathOffset + ir.1]))
                      let clen' := if isTree then root.clen
                                   else root.clen + out.rows.length
                      some (GParent.mk root.idOpt root.path clen'
                              (root.kids ++ newKids), true, page')
    | some pn =>
        match pn.idOpt with
        | none => none
        | some pid =>
            match loadModel ds totalRecs pred page (some pid) flat fuel with
            | none => none
            | some out =>
                if out.rows.isEmpty then some (pn, false, page)
                else
                  let newKids := out.rows.enum.map (fun ir =>
                    GNode.mk ir.2.row.id ir.2.clen (pn.path ++ [ir.1]))
                  let clen' := if isTree then pn.clen
                               else pn.clen + out.rows.length
                  some (GParent.mk pn.idOpt pn.path clen'
                          (pn.kids ++ newKids), true, page)

/-! ## ImageCacheManager (`utils/imageutils.py`)

Cache keys (the `(path, size, fill, border, draft)` tuples) and pixbufs are
modelled as opaque naturals; `icon` maps a cache key to its placeholder key
(`(fallback,) + params[1:]`), `transf` is the expensive image transform
(`none` models a damaged image yielding a falsy pixbuf), `transfIcon`
renders a placeholder. -/

/-- State of the image cache manager. -/
structure CacheState where
  cache : List (Nat × Nat)
  mru : List Nat
  waiting : List Nat
  queue : List Nat
  placeholders : List (Nat × Nat)
  deriving DecidableEq, Repr

/-- Append on a `collections.deque` with `maxlen`: the element goes to the
right end and the leftmost (least recently used) elements fall off. -/
def dequeAppend (maxlen : Nat) (l : List Nat) (k : Nat) : List Nat :=
  let l' := l ++ [k]
  if maxlen < l'.length then l'.drop (l'.length - maxlen) else l'

/-- Model of `_cache_pixbuf(params, pixbuf)`: store the pixbuf, drop the key
from `_waiting`, then evict every cache key absent from `_mru`. -/
def cachePixbuf (st : CacheState) (k pix : Nat) : CacheState :=
  ⟨(assocSet k pix st.cache).filter (fun kv => st.mru.contains kv.1),
   st.mru, st.waiting.erase k, st.queue, st.placeholders⟩

/-- The placeholder tail of `get_image`: look up (or render and remember) the
media-type placeholder; a freshly rendered placeholder is also stored in the
cache under the *requested* key — without any eviction pass. -/
def getImageFallback (icon : Nat → Nat) (transfIcon : Nat → Nat)
    (st : CacheState) (k : Nat) : CacheState × Nat :=
  let pk := icon k
  match assocFind pk st.placeholders with
  | some pl => (st, pl)
  | none =>
      let pl := transfIcon pk
      (⟨assocSet k pl st.cache, st.mru, st.waiting, st.queue,
        assocSet pk pl st.placeholders⟩, pl)

/-- Model of `get_image(...)`: refresh the key's LRU position, return a cache
hit immediately; on a miss either transform synchronously (caching a truthy
result via `_cache_pixbuf`) or enqueue background work once per key and
return a placeholder. -/
def getImage (maxlen : Nat) (icon : Nat → Nat) (transf : Nat → Option Nat)
    (transfIcon : Nat → Nat) (st : CacheState) (k : Nat)
    (loadOnThread : Bool) : CacheState × Nat :=
  let mru1 := if st.mru.contains k then st.mru.erase k else st.mru
  let st1 : CacheState :=
    ⟨st.cache, dequeAppend maxlen mru1 k, st.waiting, st.queue,
     st.placeholders⟩
  match assocFind k st1.cache with
  | some pix => (st1, pix)
  | none =>
      if !loadOnThread then
        match transf k with
        | some pix => (cachePixbuf st1 k pix, pix)
        | none => getImageFallback icon transfIcon st1 k
      else
        let st2 : CacheState :=
          if st1.waiting.contains k then st1
          else ⟨st1.cache, st1.mru, st1.waiting ++ [k], k :: st1.queue,
                st1.placeholders⟩
        getImageFallback icon transfIcon st2 k

/-! ## Concrete fixtures (from `tests/data.py`) -/

/-- A 3-row flat table (the paging scenario of the spec). -/
def dbFlat3 : List TRow :=
  [⟨"1", none, true, [("title", SVal.str "a")]⟩,
   ⟨"2", none, true, [("title", SVal.str "b")]⟩,
   ⟨"3", none, true, [("title", SVal.str "c")]⟩]

/-- Flat data source over `dbFlat3` with `MAX_RECS = 2`. -/
def dsFlat3 : DataSourceM :=
  ⟨dbFlat3, 2, false, false⟩

/-- The hierarchical `files` fixture of `tests/data.py`. -/
def dbFiles : List TRow :=
  [⟨"file-0", none, true, [("filename", SVal.str "file-0")]⟩,
   ⟨"file-1", none, true, [("filename", SVal.str "file-1")]⟩,
   ⟨"folder-0", none, true, [("filename", SVal.str "folder-0")]⟩,
   ⟨"folder-1", none, true, [("filename", SVal.str "folder-1")]⟩,
   ⟨"file-0-0", some "folder-0", true, [("filename", SVal.str "file-0-0")]⟩,
   ⟨"file-0-1", some "folder-0", true, [("filename", SVal.str "file-0-1")]⟩,
   ⟨"file-1-0", some "folder-1", true, [("filename", SVal.str "file-1-0")]⟩,
   ⟨"file-1-1", some "folder-1", true, [("filename", SVal.str "file-1-1")]⟩,
   ⟨"folder-1-0", some "folder-1", true,
     [("filename", SVal.str "folder-1-0")]⟩,
   ⟨"file-1-0-0", some "folder-1-0", true,
     [("filename", SVal.str "file-1-0-0")]⟩]

/-- Hierarchical data source over `dbFiles`. -/
def dsFiles : DataSourceM :=
  ⟨dbFiles, 100, true, false⟩

/-- The state after three distinct `get_image(..., load_on_thread=True)`
misses with `MAX_CACHE_SIZE = 2`, an injective media-type fallback and a
never-finishing worker: key `i` requested at step `i`. -/
def cacheOverflowDemo : CacheState :=
  let step := fun (st : CacheState) (k : Nat) =>
    (getImage 2 (fun x => x) (fun _ => none) (fun x => x) st k true).1
  step (step (step ⟨[], [], [], [], []⟩ 0) 1) 2

/-! ## Invariant vocabulary for the tree loaders -/

/-- All nodes of a tree in pre-order (the node itself and, recursively, the
nodes of its children). -/
def LNode.allNodes : LNode → List LNode
  | .mk r ks c =>
      .mk r ks c :: (ks.attach.map (fun x => x.1.allNodes)).flatten
termination_by n => sizeOf n
decreasing_by
  have h := List.sizeOf_lt_of_mem x.2
  simp only [LNode.mk.sizeOf_spec]
  omega

/-- A well-formed materialized node: its `children_len` equals the number of
attached children, and every attached child's parent id is this node's id. -/
def goodNode (n : LNode) : Prop :=
  n.clen = n.kids.length ∧ ∀ k ∈ n.kids, k.row.parent = some n.row.id

/-- Well-formedness of the filtered loader's `node_mapper`: every entry's
`children_len` equals its attached-children count, its key is its row id,
and every attached child is a mapped node whose parent id is the entry's
key. -/
def StoreWF (m : List (String × NodeData)) : Prop :=
  ∀ i nd, assocFind i m = some nd →
    nd.clen = nd.kids.length ∧ nd.row.id = i ∧
    ∀ k ∈ nd.kids, ∃ kd, assocFind k m = some kd ∧ kd.row.parent = some i

/-- Well-formedness of the pending `children` dict: every pending child id
is a mapped node whose parent id is the entry's key. -/
def ChildrenWF (c : List (Option String × List String))
    (m : List (String × NodeData)) : Prop :=
  ∀ p l, (p, l) ∈ c → ∀ k ∈ l,
    ∃ kd, assocFind k m = some kd ∧ kd.row.parent = p

/-- One mapper evolves from another when every mapped key stays mapped with
the same row (its attached children may grow). -/
def RowMono (m m' : List (String × NodeData)) : Prop :=
  ∀ k kd, assocFind k m = some kd →
    ∃ kd', assocFind k m' = some kd' ∧ kd'.row = kd.row

/-! # Theorems -/

/-! ## C6 — the full-text rank function -/

/-- C6 counterexample: on the unpacked matchinfo `[0, 0, 7, 0, 0]` the code
returns 0 while "the sum of every third value starting at offset 2" is 7 —
the triple `(7, 0, 0)` is skipped because its second component is zero, so
the claim as stated is false. -/
theorem rank_ne_sum_every_third :
    rank [0, 0, 7, 0, 0] = 0 ∧ rankSpec [0, 0, 7, 0, 0] = 7 := by
  decide

/-- C6 amended: `rank` unpacks the matchinfo as 32-bit unsigned integers and
sums every third value starting at offset 2, but only over complete triples
whose second component is nonzero; a triple with zero second component, and
any incomplete trailing group, contribute nothing. -/
theorem rank_sums_conditional_triples :
    (∀ p q a b c rest, rank (p :: q :: a :: b :: c :: rest)
        = (if b ≠ 0 then a else 0) + rank (p :: q :: rest))
    ∧ ∀ l : List Nat, l.length < 5 → rank l = 0 := by
  constructor
  · intro p q a b c rest
    by_cases hb : b = 0 <;>
      simp [rank, tripleChunks, hb]
  · intro l hl
    match l with
    | [] => rfl
    | [_] => rfl
    | [_, _] => rfl
    | [_, _, _] => rfl
    | [_, _, _, _] => rfl
    | _ :: _ :: _ :: _ :: _ :: _ :: _ => simp at hl; omega

/-- Witness for the amended C6 theorem at a concrete input. -/
theorem rank_sums_conditional_triples_witness :
    ([0, 0, 9, 9] : List Nat).length < 5 ∧ rank [0, 0, 9, 9] = 0 :=
  ⟨by decide, rank_sums_conditional_triples.2 [0, 0, 9, 9] (by decide)⟩

/-! ## C5 — timestamp normalization round trip -/

/-- C5 counterexample: for `x = 1` and `fmt = "timestamp_julian"` the
inverse-then-forward normalization yields `0.0`, not `1`: the inverse
normalization divides the Python 2 int by 86400 with *floor* division before
adding the Julian offset. -/
theorem normalize_timestamp_julian_roundtrip_fails :
    normalize_timestamp
        (normalize_timestamp (PyNum.int 1) "timestamp_julian" true)
        "timestamp_julian" false = PyNum.float 0
    ∧ PyNum.pyEq (PyNum.float 0) (PyNum.int 1) = false := by
  constructor
  · show PyNum.float ((((Int.fdiv 1 86400 : Int) : Rat)
        + UNIX_ZERO_POINT_IN_JULIAN_DAYS - UNIX_ZERO_POINT_IN_JULIAN_DAYS)
        * ((86400 : Int) : Rat)) = PyNum.float 0
    apply congrArg
    have h0 : Int.fdiv 1 86400 = 0 := by decide
    rw [h0]
    norm_num
  · simp only [PyNum.pyEq, PyNum.toRat]
    rw [beq_eq_false_iff_ne]
    norm_num

/-- C5 amended: the inverse-then-forward round trip is the identity on
integer values for every supported format *except* the two julian formats,
where it yields `86400 * (x fdiv 86400)` — the identity exactly when `x` is
a multiple of 86400. -/
theorem normalize_timestamp_roundtrip :
    (∀ fmt ∈ supported_timestamp_formats,
      fmt ≠ "timestamp_julian" → fmt ≠ "timestamp_julian_date" →
      ∀ z : Int,
        normalize_timestamp (normalize_timestamp (PyNum.int z) fmt true)
          fmt false = PyNum.int z)
    ∧ ∀ fmt ∈ ["timestamp_julian", "timestamp_julian_date"], ∀ z : Int,
        normalize_timestamp (normalize_timestamp (PyNum.int z) fmt true)
            fmt false
          = PyNum.float (((Int.fdiv z 86400 * 86400 : Int) : Rat))
        ∧ (PyNum.pyEq
            (normalize_timestamp (normalize_timestamp (PyNum.int z) fmt true)
              fmt false) (PyNum.int z) = true ↔ (86400 : Int) ∣ z) := by
  have hdiv : ∀ z : Int, Int.fdiv z 86400 * 86400 = z ↔ (86400 : Int) ∣ z := by
    intro z
    constructor
    · intro h
      exact ⟨Int.fdiv z 86400, by omega⟩
    · rintro ⟨c, rfl⟩
      rw [mul_comm 86400 c, Int.mul_fdiv_cancel c (by norm_num), mul_comm]
  have hjul : ∀ z : Int,
      PyNum.float ((((Int.fdiv z 86400 : Int) : Rat)
          + UNIX_ZERO_POINT_IN_JULIAN_DAYS - UNIX_ZERO_POINT_IN_JULIAN_DAYS)
          * ((86400 : Int) : Rat))
        = PyNum.float (((Int.fdiv z 86400 * 86400 : Int) : Rat)) := by
    intro z
    apply congrArg
    rw [add_sub_cancel_right]
    push_cast
    ring
  constructor
  · intro fmt hmem h1 h2 z
    simp only [supported_timestamp_formats, List.mem_cons,
      List.not_mem_nil, or_false] at hmem
    rcases hmem with rfl | rfl | rfl | rfl | rfl | rfl | rfl | rfl | rfl |
      rfl | rfl
    · rfl
    · rfl
    · show PyNum.int (Int.fdiv (z * 1000) 1000) = PyNum.int z
      rw [Int.mul_fdiv_cancel z (by norm_num)]
    · show PyNum.int (Int.fdiv (z * 1000) 1000) = PyNum.int z
      rw [Int.mul_fdiv_cancel z (by norm_num)]
    · show PyNum.int (Int.fdiv (z * 1000000) 1000000) = PyNum.int z
      rw [Int.mul_fdiv_cancel z (by norm_num)]
    · show PyNum.int (Int.fdiv (z * 1000000) 1000000) = PyNum.int z
      rw [Int.mul_fdiv_cancel z (by norm_num)]
    · show PyNum.int (z - APPLE_TIMESTAMP_OFFSET + APPLE_TIMESTAMP_OFFSET)
        = PyNum.int z
      rw [sub_add_cancel]
    · show PyNum.int (z - APPLE_TIMESTAMP_OFFSET + APPLE_TIMESTAMP_OFFSET)
        = PyNum.int z
      rw [sub_add_cancel]
    · show PyNum.int
        (Int.fdiv ((z + WEBKIT_TIMESTAMP_OFFSET) * 1000000) 1000000
          - WEBKIT_TIMESTAMP_OFFSET) = PyNum.int z
      rw [Int.mul_fdiv_cancel (z + WEBKIT_TIMESTAMP_OFFSET) (by norm_num),
        add_sub_cancel_right]
    · exact absurd rfl h1
    · exact absurd rfl h2
  · intro fmt hmem z
    simp only [List.mem_cons, List.not_mem_nil, or_false] at hmem
    have key : normalize_timestamp
        (normalize_timestamp (PyNum.int z) fmt true) fmt false
        = PyNum.float (((Int.fdiv z 86400 * 86400 : Int) : Rat)) := by
      rcases hmem with rfl | rfl
      · exact hjul z
      · exact hjul z
    refine ⟨key, ?_⟩
    rw [key]
    simp only [PyNum.pyEq, PyNum.toRat, beq_iff_eq]
    rw [show ((Int.fdiv z 86400 * 86400 : Int) : Rat) = ((z : Int) : Rat) ↔
        Int.fdiv z 86400 * 86400 = z from Int.cast_inj]
    exact hdiv z

/-- Witness for the amended C5 theorem at concrete inputs. -/
theorem normalize_timestamp_roundtrip_witness :
    ("timestamp_webkit" ∈ supported_timestamp_formats
      ∧ normalize_timestamp
          (normalize_timestamp (PyNum.int 5) "timestamp_webkit" true)
          "timestamp_webkit" false = PyNum.int 5)
    ∧ ("timestamp_julian" ∈ (["timestamp_julian", "timestamp_julian_date"] :
          List String)
      ∧ ((86400 : Int) ∣ 86400)
      ∧ PyNum.pyEq
          (normalize_timestamp
            (normalize_timestamp (PyNum.int 86400) "timestamp_julian" true)
            "timestamp_julian" false) (PyNum.int 86400) = true) :=
  ⟨⟨by decide,
    normalize_timestamp_roundtrip.1 "timestamp_webkit" (by decide)
      (by decide) (by decide) 5⟩,
   by decide,
   by decide,
   ((normalize_timestamp_roundtrip.2 "timestamp_julian" (by decide)
      86400).2).mpr (by decide)⟩

/-! ## C4 — timestamp transform error handling -/

/-- Helper: the guarded core `timestamp_transform` itself never raises. -/
theorem timestamp_transform_isOk (v : PyVal) (d : Bool) :
    ∃ s, timestamp_transform v d = .ok s := by
  match v with
  | .none => exact ⟨"", rfl⟩
  | .str s => exact ⟨s, rfl⟩
  | .int z =>
      by_cases h : MIN_TS ≤ z ∧ z ≤ MAX_TS
      · exact ⟨formatUsTotal (z * 1000000) d, by simp [timestamp_transform, h]⟩
      · exact ⟨toString z, by simp [timestamp_transform, h]⟩
  | .float q =>
      cases hq : utcfromtimestamp q with
      | ok usTotal =>
          exact ⟨formatUsTotal usTotal d, by simp [timestamp_transform, hq]⟩
      | error e =>
          exact ⟨pyStr (.float q), by simp [timestamp_transform, hq]⟩

/-- C4 counterexample: the claim that no registered timestamp transform ever
propagates an exception is false — `timestamp_ms_transform` divides before
the guarded core, so a wrong-typed value raises `TypeError`;
`timestamp_midnight_transform` has no handler at all, so `-1` raises
`OverflowError`; and on an out-of-range value `timestamp_ms_transform`
returns the string form of the *divided* value, not of the original. -/
theorem timestamp_transforms_do_propagate :
    timestamp_ms_transform (.str "x") = .error .typeError
    ∧ timestamp_midnight_transform (.int (-1)) = .error .overflowError
    ∧ timestamp_ms_transform (.int 315532801000000) = .ok "315532801000"
    ∧ pyStr (.int 315532801000000) = "315532801000000" := by
  refine ⟨rfl, ?_, ?_, rfl⟩
  · have hn : ¬((0 : Int) ≤ -1 ∧ (-1 : Int) ≤ MAX_MIDNIGHT) := by
      intro h
      omega
    show (if (0 : Int) ≤ -1 ∧ (-1 : Int) ≤ MAX_MIDNIGHT then
        Except.ok (isoTime (((-1 : Int) % 86400).toNat) 0)
      else Except.error PyErr.overflowError) = Except.error PyErr.overflowError
    rw [if_neg hn]
  · show timestamp_transform (.int (Int.fdiv 315532801000000 1000)) false
        = .ok "315532801000"
    have hn : ¬(MIN_TS ≤ Int.fdiv 315532801000000 1000
        ∧ Int.fdiv 315532801000000 1000 ≤ MAX_TS) := by decide
    show (if MIN_TS ≤ Int.fdiv 315532801000000 1000
          ∧ Int.fdiv 315532801000000 1000 ≤ MAX_TS then
        Except.ok (formatUsTotal (Int.fdiv 315532801000000 1000 * 1000000) false)
      else Except.ok (toString (Int.fdiv 315532801000000 1000)))
        = .ok "315532801000"
    rw [if_neg hn]
    rfl

/-- C4 amended: `timestamp_transform`/`timestamp_unix` never propagate (None
becomes the empty string, a failed conversion becomes `str(value)`), and
every registered timestamp transform maps None to the empty string; but the
derived transforms normalize the epoch *before* the guarded core, so they
are exception-free only on numeric inputs (and on failure return the string
form of the epoch-normalized value, not of the original), a str input
raises `TypeError` through them, and the midnight family — which has no
handler at all — raises `TypeError` on strs and `OverflowError` on negative
(or too large) values. -/
theorem timestamp_transforms_error_handling :
    (∀ nf ∈ timestampTransformers, nf.2 PyVal.none = .ok "")
    ∧ (∀ v : PyVal, ∃ s, timestamp_transform v = .ok s)
    ∧ (∀ z : Int,
        (∃ s, timestamp_ms_transform (.int z) = .ok s)
        ∧ (∃ s, timestamp_Ms_transform (.int z) = .ok s)
        ∧ (∃ s, timestamp_apple_transform (.int z) = .ok s)
        ∧ (∃ s, timestamp_webkit_transform (.int z) = .ok s)
        ∧ (∃ s, timestamp_julian_transform (.int z) = .ok s)
        ∧ (∃ s, timestamp_julian_date_transform (.int z) = .ok s))
    ∧ (∀ z : Int, 0 ≤ z → z ≤ MAX_MIDNIGHT →
        timestamp_midnight_transform (.int z)
          = .ok (isoTime ((z % 86400).toNat) 0))
    ∧ (∀ s : String,
        timestamp_ms_transform (.str s) = .error .typeError
        ∧ timestamp_Ms_transform (.str s) = .error .typeError
        ∧ timestamp_apple_transform (.str s) = .error .typeError
        ∧ timestamp_webkit_transform (.str s) = .error .typeError
        ∧ timestamp_julian_transform (.str s) = .error .typeError
        ∧ timestamp_julian_date_transform (.str s) = .error .typeError
        ∧ timestamp_midnight_transform (.str s) = .error .typeError
        ∧ timestamp_midnight_ms_transform (.str s) = .error .typeError
        ∧ timestamp_midnight_Ms_transform (.str s) = .error .typeError)
    ∧ (∀ z : Int, z < 0 →
        timestamp_midnight_transform (.int z) = .error .overflowError) := by
  refine ⟨?_, ?_, ?_, ?_, ?_, ?_⟩
  · intro nf h
    fin_cases h <;> rfl
  · intro v
    exact timestamp_transform_isOk v false
  · intro z
    refine ⟨?_, ?_, ?_, ?_, ?_, ?_⟩
    · exact timestamp_transform_isOk (.int (Int.fdiv z 1000)) false
    · exact timestamp_transform_isOk (.int (Int.fdiv z 1000000)) false
    · exact timestamp_transform_isOk (.int (z + APPLE_TIMESTAMP_OFFSET)) false
    · exact timestamp_transform_isOk
        (.int (Int.fdiv z 1000000 - WEBKIT_TIMESTAMP_OFFSET)) false
    · exact timestamp_transform_isOk
        (.float (((z : Rat) - UNIX_ZERO_POINT_IN_JULIAN_DAYS) * 86400)) false
    · exact timestamp_transform_isOk
        (.float (((z : Rat) - UNIX_ZERO_POINT_IN_JULIAN_DAYS) * 86400)) true
  · intro z h0 h1
    show (if (0 : Int) ≤ z ∧ z ≤ MAX_MIDNIGHT then
        Except.ok (isoTime ((z % 86400).toNat) 0)
      else Except.error PyErr.overflowError) = _
    rw [if_pos ⟨h0, h1⟩]
  · intro s
    exact ⟨rfl, rfl, rfl, rfl, rfl, rfl, rfl, rfl, rfl⟩
  · intro z hz
    have hn : ¬((0 : Int) ≤ z ∧ z ≤ MAX_MIDNIGHT) := by
      intro h
      omega
    show (if (0 : Int) ≤ z ∧ z ≤ MAX_MIDNIGHT then
        Except.ok (isoTime ((z % 86400).toNat) 0)
      else Except.error PyErr.overflowError) = _
    rw [if_neg hn]

/-- Witness for the amended C4 theorem at concrete inputs. -/
theorem timestamp_transforms_error_handling_witness :
    ((("timestamp", fun v => timestamp_transform v) :
        String × (PyVal → Except PyErr String)) ∈ timestampTransformers
      ∧ timestamp_transform PyVal.none = .ok "")
    ∧ ((0 : Int) ≤ 10 ∧ (10 : Int) ≤ MAX_MIDNIGHT
      ∧ timestamp_midnight_transform (.int 10)
          = .ok (isoTime (((10 : Int) % 86400).toNat) 0))
    ∧ ((-5 : Int) < 0
      ∧ timestamp_midnight_transform (.int (-5)) = .error .overflowError) :=
  ⟨⟨List.Mem.head _,
    timestamp_transforms_error_handling.1 _ (List.Mem.head _)⟩,
   ⟨by decide, by decide,
    timestamp_transforms_error_handling.2.2.2.1 10 (by decide) (by decide)⟩,
   ⟨by decide,
    timestamp_transforms_error_handling.2.2.2.2.2 (-5) (by decide)⟩⟩

/-! ## C8 — malformed filter operators fail fast -/

/-- Helper: a where-params entry with a non-`search` key and an operator
outside the supported set makes `getWhereClause` return an error. -/
theorem getWhereClause_error_of_bad_op (stp : Bool)
    (ps : List (String × FilterSpec)) :
    ∀ k f, (k, f) ∈ ps → k ≠ "search" →
    f.op ∉ ["=", "!=", "<", "<=", ">", ">=", "is", "range"] →
    ∃ e, getWhereClause stp ps = .error e := by
  induction ps with
  | nil =>
      intro k f h
      simp at h
  | cons hd tl ih =>
      intro k f hmem hk hop
      obtain ⟨k', f'⟩ := hd
      rcases List.mem_cons.mp hmem with heq | htl
      · -- the offending entry is at the head
        rw [Prod.mk.injEq] at heq
        obtain ⟨h1, h2⟩ := heq
        subst h1
        subst h2
        have hopKeys : f.op ∉ operatorMapperKeys := by
          intro hin
          apply hop
          simp only [operatorMapperKeys, List.mem_cons, List.not_mem_nil,
            or_false] at hin
          simp only [List.mem_cons, List.not_mem_nil, or_false]
          tauto
        have hrange : f.op ≠ "range" := by
          intro hr
          exact hop (by simp [hr])
        refine ⟨"KeyError: " ++ f.op, ?_⟩
        simp [getWhereClause, hk, hrange, hopKeys]
      · -- the offending entry is in the tail: every branch recurses
        obtain ⟨e, he⟩ := ih k f htl hk hop
        by_cases hk' : k' = "search"
        · subst hk'
          by_cases h1 : (f'.param.truthy && stp) = true
          · exact ⟨e, by simp [getWhereClause, h1, he]⟩
          · by_cases h2 : f'.param.truthy = true
            · exact ⟨e, by simp [getWhereClause, h1, h2, he]⟩
            · exact ⟨e, by simp [getWhereClause, h1, h2, he]⟩
        · by_cases hr : f'.op = "range"
          · cases hp : f'.param with
            | num n =>
                exact ⟨"TypeError: range parameter is not a 2-tuple",
                  by simp [getWhereClause, hk', hr, hp]⟩
            | pair a b =>
                exact ⟨e, by simp [getWhereClause, hk', hr, hp, he]⟩
            | str s =>
                exact ⟨"TypeError: range parameter is not a 2-tuple",
                  by simp [getWhereClause, hk', hr, hp]⟩
          · by_cases hin : f'.op ∈ operatorMapperKeys
            · exact ⟨e, by simp [getWhereClause, hk', hr, hin, he]⟩
            · exact ⟨"KeyError: " ++ f'.op,
                by simp [getWhereClause, hk', hr, hin]⟩

/-- C8: for every where-params dict containing a filter entry whose key is
not `search` and whose operator is not one of `=,!=,<,<=,>,>=,is,range`,
WHERE-clause construction raises (the `_OPERATOR_MAPPER` KeyError) before
any SQL query is executed, in `load` as well as `get_all_record_ids` — the
malformed clause is never silently dropped. -/
theorem malformed_operator_fails_fast (ds : DataSourceM) (totalRecs : Nat)
    (ps : List (String × FilterSpec)) (k : String) (f : FilterSpec)
    (page : Nat) (parentId : Option String) (flat : Bool) (fuel : Nat)
    (hmem : (k, f) ∈ ps) (hk : k ≠ "search")
    (hop : f.op ∉ ["=", "!=", "<", "<=", ">", ">=", "is", "range"]) :
    (∃ e, getWhereClause ds.searchTablePresent ps = .error e)
    ∧ (∃ e, loadChecked ds totalRecs (some ps) page parentId flat fuel
        = .error e)
    ∧ (∃ e, get_all_record_ids ds (some ps) = .error e) := by
  obtain ⟨e, he⟩ :=
    getWhereClause_error_of_bad_op ds.searchTablePresent ps k f hmem hk hop
  exact ⟨⟨e, he⟩, ⟨e, by simp [loadChecked, he]⟩,
    ⟨e, by simp [get_all_record_ids, he]⟩⟩

/-- Witness for the C8 theorem at a concrete malformed filter. -/
theorem malformed_operator_fails_fast_witness :
    ((("age", (⟨"like", FParam.num 1⟩ : FilterSpec)) ∈
        ([("age", ⟨"like", FParam.num 1⟩)] : List (String × FilterSpec)))
      ∧ ("age" : String) ≠ "search"
      ∧ ("like" : String) ∉ ["=", "!=", "<", "<=", ">", ">=", "is", "range"])
    ∧ ∃ e, get_all_record_ids dsFlat3
        (some [("age", ⟨"like", FParam.num 1⟩)]) = .error e :=
  ⟨⟨by decide, by decide, by decide⟩,
   (malformed_operator_fails_fast dsFlat3 0 [("age", ⟨"like", FParam.num 1⟩)]
      "age" ⟨"like", FParam.num 1⟩ 0 none false 1 (by decide) (by decide)
      (by decide)).2.2⟩

/-! ## C1 — paging and `total_recs` recomputation -/

/-- C1: on `page == 0` (or page absent) `load` recomputes `total_recs` by a
COUNT over the rows matching the same WHERE clause; on `page > 0` it never
recomputes it, and when `page * MAX_RECS >= total_recs` it returns an empty
root `Node` without issuing any query; paging a 3-row table with
`MAX_RECS = 2` yields pages of 2, 1 and 0 rows with COUNT executed only on
page 0. -/
theorem load_paging (ds : DataSourceM) (tr : Nat) (pred : Option (TRow → Bool))
    (pid : Option String) (flat : Bool) (fuel : Nat) :
    (∀ out, loadModel ds tr pred 0 pid flat fuel = some out →
        out.totalRecs = (applyWhere ds.db (effectiveWhere pred flat)).length
        ∧ out.countQueries = 1)
    ∧ (∀ page out, 0 < page →
        loadModel ds tr pred page pid flat fuel = some out →
        out.totalRecs = tr ∧ out.countQueries = 0)
    ∧ (∀ page, 0 < page → tr ≤ page * ds.maxRecs →
        loadModel ds tr pred page pid flat fuel = some ⟨[], 0, tr, 0, 0⟩)
    ∧ ((loadModel dsFlat3 0 none 0 none false 1).map
          (fun o => (o.rows.length, o.totalRecs, o.countQueries))
        = some (2, 3, 1)
      ∧ (loadModel dsFlat3 3 none 1 none false 1).map
          (fun o => (o.rows.length, o.totalRecs, o.countQueries))
        = some (1, 3, 0)
      ∧ loadModel dsFlat3 3 none 2 none false 1 = some ⟨[], 0, 3, 0, 0⟩) := by
  refine ⟨?_, ?_, ?_, rfl, rfl, rfl⟩
  · intro out h
    simp only [loadModel, lt_self_iff_false, false_and, if_false] at h
    split at h
    · split at h
      · split at h
        · exact absurd h (by simp)
        · split at h
          · exact absurd h (by simp)
          · cases h
            exact ⟨rfl, rfl⟩
      · cases h
        exact ⟨rfl, rfl⟩
    · cases h
      exact ⟨rfl, rfl⟩
  · intro page out hp h
    simp only [loadModel] at h
    split at h
    · cases h
      exact ⟨rfl, rfl⟩
    · have hpage : ¬(page = 0) := by omega
      simp only [hpage, if_false] at h
      split at h
      · split at h
        · split at h
          · exact absurd h (by simp)
          · split at h
            · exact absurd h (by simp)
            · cases h
              exact ⟨rfl, rfl⟩
        · cases h
          exact ⟨rfl, rfl⟩
      · cases h
        exact ⟨rfl, rfl⟩
  · intro page hp hle
    simp only [loadModel]
    rw [if_pos ⟨hp, hle⟩]

/-- Witness for the C1 theorem: the short-circuited third page of the 3-row
table. -/
theorem load_paging_witness :
    0 < 2 ∧ (3 : Nat) ≤ 2 * dsFlat3.maxRecs
    ∧ loadModel dsFlat3 3 none 2 none false 1 = some ⟨[], 0, 3, 0, 0⟩ :=
  ⟨by decide, by decide,
   (load_paging dsFlat3 3 none none false 1).2.2.1 2 (by decide) (by decide)⟩

/-! ## C10 — the root Node's `children_len` reflects the loaded page -/

/-- C10: for every parameter set, the root `Node` returned by `load` has
`children_len` equal to the number of rows actually returned by that call
(so its `is_children_loaded()` is True), even when `total_recs` exceeds the
page size — as in the 3-row table with `MAX_RECS = 2`, where the first page
has 2 rows and `children_len == 2` while `total_recs == 3`. -/
theorem load_root_children_len (ds : DataSourceM) (tr : Nat)
    (pred : Option (TRow → Bool)) (page : Nat) (pid : Option String)
    (flat : Bool) (fuel : Nat) :
    (∀ out, loadModel ds tr pred page pid flat fuel = some out →
        out.rootClen = out.rows.length
        ∧ is_children_loaded out.rows.length out.rootClen = true)
    ∧ (loadModel dsFlat3 0 none 0 none false 1).map
        (fun o => (o.rows.length, o.rootClen, o.totalRecs)) = some (2, 2, 3) := by
  refine ⟨?_, rfl⟩
  intro out h
  have hlen : out.rootClen = out.rows.length := by
    simp only [loadModel] at h
    split at h
    · cases h
      rfl
    · split at h
      · split at h
        · split at h
          · exact absurd h (by simp)
          · split at h
            · exact absurd h (by simp)
            · cases h
              rfl
        · cases h
          rfl
      · cases h
        rfl
  refine ⟨hlen, ?_⟩
  simp [is_children_loaded, hlen]

/-- Witness for the C10 theorem at the first page of the 3-row table. -/
theorem load_root_children_len_witness :
    ∃ out, loadModel dsFlat3 0 none 0 none false 1 = some out
      ∧ out.rootClen = out.rows.length
      ∧ is_children_loaded out.rows.length out.rootClen = true :=
  ⟨_, rfl,
   ((load_root_children_len dsFlat3 0 none 0 none false 1).1 _ rfl).1,
   ((load_root_children_len dsFlat3 0 none 0 none false 1).1 _ rfl).2⟩

/-! ## C7 — image cache eviction -/

/-- Keys of an association list after a dict insertion: unchanged when the
key was present, extended by the key otherwise. -/
theorem assocSet_map_fst {α β : Type} [DecidableEq α] (k : α) (v : β)
    (m : List (α × β)) :
    (assocSet k v m).map Prod.fst
      = if k ∈ m.map Prod.fst then m.map Prod.fst
        else m.map Prod.fst ++ [k] := by
  induction m with
  | nil => simp [assocSet]
  | cons hd tl ih =>
      obtain ⟨k', v'⟩ := hd
      by_cases hk : k' = k
      · subst hk
        simp [assocSet]
      · by_cases hmem : k ∈ tl.map Prod.fst
        · simp [assocSet, hk, ih, hmem, Ne.symm hk]
        · simp [assocSet, hk, ih, hmem, Ne.symm hk]

/-- Keys stay duplicate-free under a dict insertion. -/
theorem assocSet_keys_nodup {α β : Type} [DecidableEq α] {k : α} {v : β}
    {m : List (α × β)} (h : (m.map Prod.fst).Nodup) :
    ((assocSet k v m).map Prod.fst).Nodup := by
  rw [assocSet_map_fst]
  split
  · exact h
  · next hk =>
      rw [List.nodup_append]
      exact ⟨h, List.nodup_singleton k,
        fun a ha hak => hk ((List.mem_singleton.mp hak) ▸ ha)⟩

/-- C7 amended (the `_cache_pixbuf` part of the claim, which holds): after a
`_cache_pixbuf` insert, every cached key lies in the LRU deque; since the
deque is bounded, the cache then has at most `MAX_CACHE_SIZE` entries. -/
theorem cachePixbuf_trims_to_mru (st : CacheState) (k pix maxlen : Nat)
    (hmru : st.mru.length ≤ maxlen)
    (hnodup : (st.cache.map Prod.fst).Nodup) :
    (∀ k' ∈ (cachePixbuf st k pix).cache.map Prod.fst, k' ∈ st.mru)
    ∧ (cachePixbuf st k pix).mru = st.mru
    ∧ (cachePixbuf st k pix).cache.length ≤ maxlen := by
  have hsub : ∀ k' ∈ (cachePixbuf st k pix).cache.map Prod.fst,
      k' ∈ st.mru := by
    intro k' h
    obtain ⟨kv, hkv, rfl⟩ := List.mem_map.mp h
    have h2 := (List.mem_filter.mp hkv).2
    simpa using h2
  refine ⟨hsub, rfl, ?_⟩
  have hsubl : (cachePixbuf st k pix).cache.Sublist
      (assocSet k pix st.cache) :=
    List.filter_sublist _
  have hnd : ((cachePixbuf st k pix).cache.map Prod.fst).Nodup :=
    List.Nodup.sublist (List.Sublist.map Prod.fst hsubl)
      (assocSet_keys_nodup hnodup)
  have hsp : List.Subperm ((cachePixbuf st k pix).cache.map Prod.fst)
      st.mru :=
    List.Nodup.subperm hnd (fun a ha => hsub a ha)
  have hle := hsp.length_le
  rw [List.length_map] at hle
  exact le_trans hle hmru

/-- Witness for the amended C7 theorem at a concrete cache state. -/
theorem cachePixbuf_trims_to_mru_witness :
    (([5, 7] : List Nat).length ≤ 2
      ∧ (([(5, 50)] : List (Nat × Nat)).map Prod.fst).Nodup)
    ∧ (cachePixbuf ⟨[(5, 50)], [5, 7], [], [], []⟩ 7 70).cache.length ≤ 2 :=
  ⟨⟨by decide, by decide⟩,
   (cachePixbuf_trims_to_mru ⟨[(5, 50)], [5, 7], [], [], []⟩ 7 70 2
      (by decide) (by decide)).2.2⟩

/-- C7 counterexample: the placeholder insert in `get_image`
(`self._cache[params] = placeholder`) bypasses the eviction pass, so after
three distinct thread-loaded misses with `MAX_CACHE_SIZE = 2` the cache
holds 3 entries — more than `MAX_CACHE_SIZE` — and contains a key absent
from the LRU deque.  The claim's "after every insert ... the cache never
exceeds MAX_CACHE_SIZE entries" is therefore false as stated. -/
theorem image_cache_exceeds_capacity :
    cacheOverflowDemo.cache.length = 3
    ∧ 2 < cacheOverflowDemo.cache.length
    ∧ cacheOverflowDemo.cache.all
        (fun kv => cacheOverflowDemo.mru.contains kv.1) = false := by
  decide

/-! ## Association-list lemmas for the tree-loader proofs -/

/-- Appending a fresh entry does not change existing lookups. -/
theorem assocFind_append_of_some {α β : Type} [DecidableEq α] {a : α}
    {v : β} {m : List (α × β)} (e : α × β) (h : assocFind a m = some v) :
    assocFind a (m ++ [e]) = some v := by
  induction m with
  | nil => simp [assocFind] at h
  | cons hd tl ih =>
      obtain ⟨k', v'⟩ := hd
      by_cases hk : k' = a
      · subst hk
        simp [assocFind] at h ⊢
        exact h
      · simp [assocFind, hk] at h ⊢
        exact ih h

/-- Lookup after appending an entry to a list that lacks the key. -/
theorem assocFind_append_of_none {α β : Type} [DecidableEq α] {a i : α}
    {nd : β} {m : List (α × β)} (h : assocFind a m = none) :
    assocFind a (m ++ [(i, nd)]) = if i = a then some nd else none := by
  induction m with
  | nil => simp [assocFind]
  | cons hd tl ih =>
      obtain ⟨k', v'⟩ := hd
      by_cases hk : k' = a
      · subst hk
        simp [assocFind] at h
      · simp [assocFind, hk] at h ⊢
        exact ih h

/-- Lookup after a dict insertion. -/
theorem assocFind_assocSet {α β : Type} [DecidableEq α] (a i : α) (v : β)
    (m : List (α × β)) :
    assocFind a (assocSet i v m) = if i = a then some v else assocFind a m := by
  induction m with
  | nil => simp [assocSet, assocFind]
  | cons hd tl ih =>
      obtain ⟨k', v'⟩ := hd
      by_cases hki : k' = i
      · subst hki
        by_cases hka : k' = a
        · subst hka
          simp [assocSet, assocFind]
        · simp [assocSet, assocFind, hka]
      · by_cases hka : k' = a
        · subst hka
          have : ¬(i = k') := fun h => hki h.symm
          simp [assocSet, assocFind, hki, this]
        · simp [assocSet, assocFind, hki, hka, ih]

/-- `RowMono` is reflexive. -/
theorem rowMono_refl (m : List (String × NodeData)) : RowMono m m :=
  fun _ kd h => ⟨kd, h, rfl⟩

/-- `RowMono` composes. -/
theorem rowMono_trans {m₁ m₂ m₃ : List (String × NodeData)}
    (h12 : RowMono m₁ m₂) (h23 : RowMono m₂ m₃) : RowMono m₁ m₃ := by
  intro k kd h
  obtain ⟨kd', h', hr'⟩ := h12 k kd h
  obtain ⟨kd'', h'', hr''⟩ := h23 k kd' h'
  exact ⟨kd'', h'', hr''.trans hr'⟩

/-- Appending a fresh mapper entry is row-monotone. -/
theorem rowMono_append (m : List (String × NodeData)) (e : String × NodeData) :
    RowMono m (m ++ [e]) :=
  fun _ kd h => ⟨kd, assocFind_append_of_some e h, rfl⟩

/-- Updating an entry in place while keeping its row is row-monotone. -/
theorem rowMono_set {m : List (String × NodeData)} {p : String}
    {nd v : NodeData} (hfind : assocFind p m = some nd)
    (hrow : v.row = nd.row) : RowMono m (assocSet p v m) := by
  intro k kd h
  rw [assocFind_assocSet]
  by_cases hpk : p = k
  · subst hpk
    rw [hfind] at h
    cases h
    exact ⟨v, by simp, hrow⟩
  · exact ⟨kd, by simp [hpk, h], rfl⟩

/-- Parent-witnesses survive row-monotone evolution. -/
theorem wit_mono {m m' : List (String × NodeData)} {k : String}
    {p : Option String} (hm : RowMono m m')
    (h : ∃ kd, assocFind k m = some kd ∧ kd.row.parent = p) :
    ∃ kd, assocFind k m' = some kd ∧ kd.row.parent = p := by
  obtain ⟨kd, h1, h2⟩ := h
  obtain ⟨kd', h1', hr⟩ := hm k kd h1
  exact ⟨kd', h1', by rw [hr, h2]⟩

/-- `ChildrenWF` survives row-monotone mapper evolution. -/
theorem childrenWF_mono {c : List (Option String × List String)}
    {m m' : List (String × NodeData)} (h : ChildrenWF c m)
    (hm : RowMono m m') : ChildrenWF c m' :=
  fun p l hmem k hk => wit_mono hm (h p l hmem k hk)

/-- `childrenAdd` preserves `ChildrenWF` when the added id has a parent
witness. -/
theorem childrenWF_childrenAdd {c : List (Option String × List String)}
    {m : List (String × NodeData)} {p : Option String} {id : String}
    (h : ChildrenWF c m)
    (hnew : ∃ kd, assocFind id m = some kd ∧ kd.row.parent = p) :
    ChildrenWF (childrenAdd p id c) m := by
  induction c with
  | nil =>
      intro p' l' hmem k hk
      simp [childrenAdd] at hmem
      obtain ⟨rfl, rfl⟩ := hmem
      simp at hk
      subst hk
      exact hnew
  | cons hd tl ih =>
      obtain ⟨q, l⟩ := hd
      have htl : ChildrenWF tl m := fun p' l' hmem => h p' l' (by simp [hmem])
      by_cases hq : q = p
      · subst hq
        intro p' l' hmem k hk
        simp only [childrenAdd, if_pos rfl] at hmem
        rcases List.mem_cons.mp hmem with heq | hmem'
        · rw [Prod.mk.injEq] at heq
          obtain ⟨rfl, rfl⟩ := heq
          rcases List.mem_append.mp hk with hk' | hk'
          · exact h p' l (by simp) k hk'
          · simp at hk'
            subst hk'
            exact hnew
        · exact htl p' l' hmem' k hk
      · intro p' l' hmem k hk
        simp only [childrenAdd, if_neg hq] at hmem
        rcases List.mem_cons.mp hmem with heq | hmem'
        · rw [Prod.mk.injEq] at heq
          obtain ⟨rfl, rfl⟩ := heq
          exact h p' l' (by simp) k hk
        · exact ih htl p' l' hmem' k hk

/-- `load_rows` preserves the loader invariants and is row-monotone. -/
theorem loadRowsAux_wf :
    ∀ (rows : List TRow) (st : TreeLoadState), StoreWF st.mapper →
    ChildrenWF st.children st.mapper →
    StoreWF (loadRowsAux rows st).mapper
    ∧ ChildrenWF (loadRowsAux rows st).children (loadRowsAux rows st).mapper
    ∧ RowMono st.mapper (loadRowsAux rows st).mapper := by
  intro rows
  induction rows with
  | nil =>
      intro st h1 h2
      exact ⟨h1, h2, rowMono_refl _⟩
  | cons r rest ih =>
      intro st h1 h2
      by_cases hf : (assocFind r.id st.mapper).isSome
      · rw [loadRowsAux, if_pos hf]
        exact ih st h1 h2
      · rw [loadRowsAux, if_neg hf]
        have hnone : assocFind r.id st.mapper = none :=
          Option.not_isSome_iff_eq_none.mp hf
        set st' : TreeLoadState :=
          ⟨childrenAdd r.parent r.id st.children,
           st.mapper ++ [(r.id, ⟨r, [], 0⟩)], st.loads⟩ with hst'
        have hmono : RowMono st.mapper st'.mapper :=
          rowMono_append st.mapper (r.id, ⟨r, [], 0⟩)
        have hwit : ∃ kd, assocFind r.id st'.mapper = some kd
            ∧ kd.row.parent = r.parent := by
          refine ⟨⟨r, [], 0⟩, ?_, rfl⟩
          rw [show st'.mapper = st.mapper ++ [(r.id, ⟨r, [], 0⟩)] from rfl,
            assocFind_append_of_none hnone]
          simp
        have h1' : StoreWF st'.mapper := by
          intro i nd hfind
          rw [show st'.mapper = st.mapper ++ [(r.id, ⟨r, [], 0⟩)] from rfl]
            at hfind
          cases hm : assocFind i st.mapper with
          | some v =>
              rw [assocFind_append_of_some _ hm] at hfind
              cases hfind
              obtain ⟨hc, hid, hkids⟩ := h1 i nd hm
              exact ⟨hc, hid, fun k hk => wit_mono hmono (hkids k hk)⟩
          | none =>
              rw [assocFind_append_of_none hm] at hfind
              by_cases hri : r.id = i
              · rw [if_pos hri] at hfind
                cases hfind
                exact ⟨rfl, hri, by intro k hk; simp at hk⟩
              · rw [if_neg hri] at hfind
                cases hfind
        have h2' : ChildrenWF st'.children st'.mapper := by
          have hbase : ChildrenWF st.children st'.mapper :=
            childrenWF_mono h2 hmono
          exact childrenWF_childrenAdd hbase hwit
        obtain ⟨ha, hb, hc⟩ := ih st' h1' h2'
        exact ⟨ha, hb, rowMono_trans hmono hc⟩

/-- One pass of the parent-attachment loop preserves the loader invariants
and is row-monotone. -/
theorem processEntries_wf :
    ∀ (c : List (Option String × List String))
      (m : List (String × NodeData)), StoreWF m → ChildrenWF c m →
    StoreWF (processEntries c m).2.1
    ∧ ChildrenWF (processEntries c m).1 (processEntries c m).2.1
    ∧ RowMono m (processEntries c m).2.1 := by
  intro c
  induction c with
  | nil =>
      intro m h1 _
      refine ⟨h1, ?_, rowMono_refl m⟩
      intro p l hmem
      simp [processEntries] at hmem
  | cons hd tl ih =>
      intro m h1 h2
      have htl : ChildrenWF tl m := fun p l hmem => h2 p l (by simp [hmem])
      obtain ⟨popt, l⟩ := hd
      cases popt with
      | none =>
          obtain ⟨ha, hb, hc⟩ := ih m h1 htl
          rcases hpe : processEntries tl m with ⟨c₀, m', t⟩
          rw [hpe] at ha hb hc
          refine ⟨?_, ?_, ?_⟩ <;>
            simp only [processEntries, hpe]
          · exact ha
          · intro p' l' hmem k hk
            rcases List.mem_cons.mp hmem with heq | hmem'
            · exact wit_mono hc
                (h2 p' l' (by rw [heq]; exact List.mem_cons_self _ _) k hk)
            · exact hb p' l' hmem' k hk
          · exact hc
      | some p =>
          cases hf : assocFind p m with
          | some nd =>
              set v : NodeData :=
                ⟨nd.row, nd.kids ++ l, nd.kids.length + l.length⟩ with hv
              have hmono : RowMono m (assocSet p v m) :=
                rowMono_set hf rfl
              have h1' : StoreWF (assocSet p v m) := by
                intro i nd₁ hfind
                rw [assocFind_assocSet] at hfind
                by_cases hpi : p = i
                · subst hpi
                  rw [if_pos rfl] at hfind
                  cases hfind
                  obtain ⟨hc₀, hid₀, hkids₀⟩ := h1 p nd hf
                  refine ⟨by simp [hv], by simp [hv, hid₀], ?_⟩
                  intro k hk
                  rcases List.mem_append.mp (by simpa [hv] using hk)
                      with hk' | hk'
                  · exact wit_mono hmono (hkids₀ k hk')
                  · exact wit_mono hmono (h2 (some p) l (by simp) k hk')
                · rw [if_neg hpi] at hfind
                  obtain ⟨hc₀, hid₀, hkids₀⟩ := h1 i nd₁ hfind
                  exact ⟨hc₀, hid₀, fun k hk => wit_mono hmono (hkids₀ k hk)⟩
              have h2' : ChildrenWF tl (assocSet p v m) :=
                childrenWF_mono htl hmono
              obtain ⟨ha, hb, hc⟩ := ih (assocSet p v m) h1' h2'
              rcases hpe : processEntries tl (assocSet p v m) with ⟨c₀, m', t⟩
              rw [hpe] at ha hb hc
              refine ⟨?_, ?_, ?_⟩ <;>
                simp only [processEntries, hf, hpe]
              · exact ha
              · exact hb
              · exact rowMono_trans hmono hc
          | none =>
              obtain ⟨ha, hb, hc⟩ := ih m h1 htl
              rcases hpe : processEntries tl m with ⟨c₀, m', t⟩
              rw [hpe] at ha hb hc
              refine ⟨?_, ?_, ?_⟩ <;>
                simp only [processEntries, hf, hpe]
              · exact ha
              · intro p' l' hmem k hk
                rcases List.mem_cons.mp hmem with heq | hmem'
                · exact wit_mono hc
                    (h2 p' l' (by rw [heq]; exact List.mem_cons_self _ _) k hk)
                · exact hb p' l' hmem' k hk
              · exact hc

/-- One `while`-loop iteration preserves the loader invariants. -/
theorem treeIterate_wf (db : List TRow) (st : TreeLoadState)
    (h1 : StoreWF st.mapper) (h2 : ChildrenWF st.children st.mapper) :
    StoreWF (treeIterate db st).mapper
    ∧ ChildrenWF (treeIterate db st).children (treeIterate db st).mapper := by
  obtain ⟨ha, hb, hc⟩ := processEntries_wf st.children st.mapper h1 h2
  rcases hpe : processEntries st.children st.mapper with ⟨c₀, m', t⟩
  rw [hpe] at ha hb hc
  by_cases ht : t.isEmpty
  · refine ⟨?_, ?_⟩ <;> simp only [treeIterate, hpe, ht, if_true]
    · exact ha
    · exact hb
  · have := loadRowsAux_wf
      (db.filter (fun r => t.contains r.id)) ⟨c₀, m', st.loads + 1⟩ ha hb
    refine ⟨?_, ?_⟩ <;>
      simp only [treeIterate, hpe, ht, if_false, loadRowsStep]
    · exact this.1
    · exact this.2.1

/-- The parent-resolution loop preserves the loader invariants. -/
theorem treeLoop_wf (db : List TRow) :
    ∀ (fuel : Nat) (st st' : TreeLoadState),
    treeLoop db fuel st = some st' → StoreWF st.mapper →
    ChildrenWF st.children st.mapper →
    StoreWF st'.mapper ∧ ChildrenWF st'.children st'.mapper := by
  intro fuel
  induction fuel with
  | zero =>
      intro st st' h
      simp [treeLoop] at h
  | succ fuel ih =>
      intro st st' h h1 h2
      rw [treeLoop] at h
      by_cases hg : st.children.map Prod.fst = [Option.none]
      · rw [if_pos hg] at h
        cases h
        exact ⟨h1, h2⟩
      · rw [if_neg hg] at h
        obtain ⟨ha, hb⟩ := treeIterate_wf db st h1 h2
        exact ih (treeIterate db st) st' h ha hb

/-- At loop exit the pending `children` dict has exactly the NULL key. -/
theorem treeLoop_guard (db : List TRow) :
    ∀ (fuel : Nat) (st st' : TreeLoadState),
    treeLoop db fuel st = some st' →
    st'.children.map Prod.fst = [Option.none] := by
  intro fuel
  induction fuel with
  | zero =>
      intro st st' h
      simp [treeLoop] at h
  | succ fuel ih =>
      intro st st' h
      rw [treeLoop] at h
      by_cases hg : st.children.map Prod.fst = [Option.none]
      · rw [if_pos hg] at h
        cases h
        exact hg
      · rw [if_neg hg] at h
        exact ih (treeIterate db st) st' h

/-- A successful filtered tree load produces a well-formed mapper, and every
root-level id maps to a node whose parent id is NULL. -/
theorem loadTreeFiltered_wf (db : List TRow) (p : TRow → Bool) (fuel : Nat)
    (rootIds : List String) (st : TreeLoadState)
    (h : loadTreeFiltered db p fuel = some (rootIds, st)) :
    StoreWF st.mapper
    ∧ (∀ k ∈ rootIds,
        ∃ kd, assocFind k st.mapper = some kd ∧ kd.row.parent = none) := by
  have hempty : StoreWF ([] : List (String × NodeData)) := by
    intro i nd hfind
    simp [assocFind] at hfind
  have hcempty : ChildrenWF ([] : List (Option String × List String)) [] := by
    intro p' l hmem
    simp at hmem
  obtain ⟨h1, h2, _⟩ :=
    loadRowsAux_wf (db.filter p) ⟨[], [], 0 + 1⟩ hempty hcempty
  rw [loadTreeFiltered] at h
  set st0 := loadRowsStep db p ⟨[], [], 0⟩ with hst0
  have h1' : StoreWF st0.mapper := h1
  have h2' : ChildrenWF st0.children st0.mapper := h2
  by_cases hc : st0.children.isEmpty
  · rw [if_pos hc] at h
    have hpair := Option.some.inj h
    rw [Prod.mk.injEq] at hpair
    obtain ⟨h1eq, h2eq⟩ := hpair
    subst h2eq
    subst h1eq
    refine ⟨h1', ?_⟩
    intro k hk
    simp at hk
  · rw [if_neg hc] at h
    cases hL : treeLoop db fuel st0 with
    | none =>
        rw [hL] at h
        cases h
    | some stF =>
        rw [hL] at h
        have hpair := Option.some.inj h
        rw [Prod.mk.injEq] at hpair
        obtain ⟨h1eq, h2eq⟩ := hpair
        subst h2eq
        subst h1eq
        obtain ⟨ha, hb⟩ := treeLoop_wf db fuel st0 stF hL h1' h2'
        refine ⟨ha, ?_⟩
        have hg := treeLoop_guard db fuel st0 stF hL
        intro k hk
        rcases hcs : stF.children with _ | ⟨⟨p₀, l₀⟩, rest⟩
        · rw [hcs] at hg
          simp at hg
        · rw [hcs] at hg
          simp at hg
          obtain ⟨hp₀, hrest⟩ := hg
          subst hp₀
          subst hrest
          have hfind : assocFind Option.none stF.children = some l₀ := by
            rw [hcs]
            simp [assocFind]
          rw [hfind] at hk
          simp at hk
          exact hb none l₀ (by rw [hcs]; simp) k hk

/-- Unfolding lemma for the pre-order node list. -/
theorem allNodes_mk (r : TRow) (ks : List LNode) (c : Nat) :
    (LNode.mk r ks c).allNodes
      = LNode.mk r ks c :: (ks.map LNode.allNodes).flatten := by
  rw [LNode.allNodes]
  congr 1
  congr 1
  exact List.attach_map_val ks LNode.allNodes

/-- A successful materialization from a well-formed mapper yields one node
per id, each carrying its mapper entry's row and `children_len`, and every
node in the resulting forest (all levels) is well formed. -/
theorem buildForest_good (m : List (String × NodeData)) (hwf : StoreWF m) :
    ∀ (fuel : Nat) (ids : List String) (ns : List LNode),
    buildForest m fuel ids = some ns →
    ns.length = ids.length
    ∧ (∀ n ∈ ns, ∃ k, k ∈ ids
        ∧ ∃ kd, assocFind k m = some kd ∧ n.row = kd.row ∧ n.clen = kd.clen)
    ∧ (∀ n ∈ ns, ∀ n' ∈ n.allNodes, goodNode n') := by
  intro fuel
  induction fuel with
  | zero =>
      intro ids ns h
      simp [buildForest] at h
  | succ fuel ih =>
      intro ids ns h
      cases ids with
      | nil =>
          rw [buildForest] at h
          cases h
          refine ⟨rfl, ?_, ?_⟩ <;> intro n hn <;> simp at hn
      | cons i rest =>
          rw [buildForest] at h
          cases hfi : assocFind i m with
          | none =>
              simp only [hfi] at h
              cases h
          | some nd =>
              simp only [hfi] at h
              cases hks : buildForest m fuel nd.kids with
              | none =>
                  simp only [hks] at h
                  cases h
              | some ks =>
                  simp only [hks] at h
                  cases hns : buildForest m fuel rest with
                  | none =>
                      simp only [hns] at h
                      cases h
                  | some ns' =>
                      simp only [hns, Option.some.injEq] at h
                      subst h
                      obtain ⟨hklen, hkcorr, hkgood⟩ := ih nd.kids ks hks
                      obtain ⟨hrlen, hrcorr, hrgood⟩ := ih rest ns' hns
                      obtain ⟨hclen, hid, hkids⟩ := hwf i nd hfi
                      refine ⟨by simp [hrlen], ?_, ?_⟩
                      · intro n hn
                        rcases List.mem_cons.mp hn with rfl | hn'
                        · exact ⟨i, by simp, nd, hfi, rfl, rfl⟩
                        · obtain ⟨k, hk, kd, hkd⟩ := hrcorr n hn'
                          exact ⟨k, by simp [hk], kd, hkd⟩
                      · intro n hn
                        rcases List.mem_cons.mp hn with rfl | hn'
                        · intro n' hn'
                          rw [allNodes_mk] at hn'
                          rcases List.mem_cons.mp hn' with rfl | hdeep
                          · -- the node itself
                            constructor
                            · show nd.clen = ks.length
                              rw [hclen, hklen]
                            · intro k hk
                              show k.row.parent = some nd.row.id
                              obtain ⟨kid, hkid, kd, hkdf, hkrow, _⟩ :=
                                hkcorr k hk
                              obtain ⟨kd', hkd'f, hkd'p⟩ := hkids kid hkid
                              rw [hkdf] at hkd'f
                              cases hkd'f
                              rw [hkrow, hkd'p, hid]
                          · -- a node strictly below
                            obtain ⟨l', hl', hmem'⟩ :=
                              List.mem_flatten.mp hdeep
                            obtain ⟨kn, hkn, rfl⟩ := List.mem_map.mp hl'
                            exact hkgood kn hkn n' hmem'
                        · exact hrgood n hn'

/-! ## C3 — filtered hierarchical loading -/

/-- C3: a successful hierarchical load with a WHERE clause yields a forest in
which every node's `children_len` equals the number of children actually
attached to it (the ancestor-resolution algorithm sets
`node.children_len = len(node)` on every attachment), every attached child's
parent id is its parent's id, and every root's parent id is NULL — a
connected tree; concretely, filtering the `files` fixture to `file-1-0-0`
yields exactly the chain folder-1 → folder-1-0 → file-1-0-0 with both
ancestors' `children_len == 1`. -/
theorem filtered_hierarchical_load (ds : DataSourceM) (tr : Nat)
    (p : TRow → Bool) (page : Nat) (pid : Option String) (fuel : Nat)
    (out : LoadOut) (hpar : ds.hasParentCol = true)
    (h : loadModel ds tr (some p) page pid false fuel = some out) :
    ((∀ n ∈ out.rows, ∀ n' ∈ n.allNodes, goodNode n')
      ∧ ∀ n ∈ out.rows, n.row.parent = none)
    ∧ loadModel dsFiles 0 (some (fun r => r.id == "file-1-0-0")) 0 none
        false 20
      = some ⟨[LNode.mk
          ⟨"folder-1", none, true, [("filename", SVal.str "folder-1")]⟩
          [LNode.mk
            ⟨"folder-1-0", some "folder-1", true,
              [("filename", SVal.str "folder-1-0")]⟩
            [LNode.mk
              ⟨"file-1-0-0", some "folder-1-0", true,
                [("filename", SVal.str "file-1-0-0")]⟩
              [] 0]
            1]
          1], 1, 1, 1, 3⟩ := by
  refine ⟨?_, rfl⟩
  simp only [loadModel] at h
  split at h
  · cases h
    constructor <;> intro n hn <;> simp at hn
  · simp only [hpar, Bool.not_false, Bool.and_self, if_true] at h
    cases hlf : loadTreeFiltered ds.db p fuel with
    | none =>
        simp only [hlf] at h
        cases h
    | some pr =>
        obtain ⟨rootIds, st⟩ := pr
        simp only [hlf] at h
        cases hbf : buildForest st.mapper fuel rootIds with
        | none =>
            simp only [hbf] at h
            cases h
        | some ns =>
            simp only [hbf, Option.some.injEq] at h
            subst h
            obtain ⟨hwf, hroots⟩ :=
              loadTreeFiltered_wf ds.db p fuel rootIds st hlf
            obtain ⟨hlen, hcorr, hgood⟩ :=
              buildForest_good st.mapper hwf fuel rootIds ns hbf
            refine ⟨hgood, ?_⟩
            intro n hn
            obtain ⟨k, hk, kd, hkf, hkrow, _⟩ := hcorr n hn
            obtain ⟨kd', hkf', hkp'⟩ := hroots k hk
            rw [hkf] at hkf'
            cases hkf'
            rw [hkrow, hkp']

/-- Witness for the C3 theorem at the concrete filtered load. -/
theorem filtered_hierarchical_load_witness :
    dsFiles.hasParentCol = true
    ∧ ∃ out, loadModel dsFiles 0 (some (fun r => r.id == "file-1-0-0")) 0
        none false 20 = some out
      ∧ ∀ n ∈ out.rows, n.row.parent = none :=
  ⟨rfl, _, rfl,
   (filtered_hierarchical_load dsFiles 0 (fun r => r.id == "file-1-0-0") 0
      none 20 _ rfl rfl).1.2⟩

/-! ## C2 — `len(node) <= node.children_len` -/

/-- Helper: a lazy (no-WHERE) hierarchical load returns exactly the direct
children of `parent_id`, so its row count is the correlated child count. -/
theorem loadModel_lazy_rows (ds : DataSourceM) (tr page fuel : Nat)
    (pid : String) (lo : LoadOut) (hpar : ds.hasParentCol = true)
    (h : loadModel ds tr none page (some pid) false fuel = some lo) :
    lo.rows = [] ∨ lo.rows.length = childCount ds.db pid := by
  simp only [loadModel] at h
  split at h
  · cases h
    exact Or.inl rfl
  · simp only [hpar, Bool.not_false, Bool.and_self, if_true] at h
    cases h
    exact Or.inr (by simp [childCount])

/-- C2: every node materialized by `load` (flat pages, lazy children,
filtered trees) satisfies `len(node) <= node.children_len` — with the root's
count equal — and after a successful `add_rows(node)` on a tree node with no
loaded children in lazy (no-filter) hierarchical mode,
`len(node) == node.children_len` (its `is_children_loaded()` is True);
moreover the non-tree `add_rows` branches (flat/root pagination, where
`parent_row.children_len += 1` per appended row) preserve the invariant: a
target with `len <= children_len` still satisfies it afterwards, and a fully
loaded target stays fully loaded. -/
theorem node_children_len_invariant :
    (∀ (ds : DataSourceM) (tr : Nat) (pred : Option (TRow → Bool))
        (page : Nat) (pid : Option String) (flat : Bool) (fuel : Nat)
        (out : LoadOut), loadModel ds tr pred page pid flat fuel = some out →
        out.rows.length ≤ out.rootClen
        ∧ ∀ n ∈ out.rows, ∀ n' ∈ n.allNodes, n'.kids.length ≤ n'.clen)
    ∧ (∀ (ds : DataSourceM) (tr page fuel : Nat) (root pn : GParent)
        (pid : String) (out : GParent) (page₂ : Nat),
        ds.hasParentCol = true → pn.idOpt = some pid → pn.kids = [] →
        pn.clen = childCount ds.db pid →
        addRows ds tr none page false root (some pn) fuel
          = some (out, true, page₂) →
        out.kids.length = out.clen
        ∧ is_children_loaded out.kids.length out.clen = true)
    ∧ (∀ (ds : DataSourceM) (tr : Nat) (pred : Option (TRow → Bool))
        (page : Nat) (flat : Bool) (fuel : Nat) (root out : GParent)
        (added : Bool) (page₂ : Nat),
        (ds.hasParentCol && !flat) = false →
        addRows ds tr pred page flat root none fuel
          = some (out, added, page₂) →
        (root.kids.length ≤ root.clen → out.kids.length ≤ out.clen)
        ∧ (root.kids.length = root.clen → out.kids.length = out.clen))
    ∧ (∀ (ds : DataSourceM) (tr : Nat) (pred : Option (TRow → Bool))
        (page : Nat) (flat : Bool) (fuel : Nat) (root pn out : GParent)
        (added : Bool) (page₂ : Nat),
        (ds.hasParentCol && !flat) = false →
        addRows ds tr pred page flat root (some pn) fuel
          = some (out, added, page₂) →
        (pn.kids.length ≤ pn.clen → out.kids.length ≤ out.clen)
        ∧ (pn.kids.length = pn.clen → out.kids.length = out.clen)) := by
  have leafAll : ∀ (r : TRow) (c : Nat),
      (LNode.mk r [] c).allNodes = [LNode.mk r [] c] := by
    intro r c
    rw [allNodes_mk]
    simp
  refine ⟨?_, ?_, ?_, ?_⟩
  · intro ds tr pred page pid flat fuel out h
    simp only [loadModel] at h
    split at h
    · cases h
      exact ⟨Nat.le_refl 0, by intro n hn; simp at hn⟩
    · split at h
      · -- hierarchical branch
        cases hpred : pred with
        | some p =>
            rw [hpred] at h
            cases hlf : loadTreeFiltered ds.db p fuel with
            | none =>
                simp only [hlf] at h
                cases h
            | some pr =>
                obtain ⟨rootIds, st⟩ := pr
                simp only [hlf] at h
                cases hbf : buildForest st.mapper fuel rootIds with
                | none =>
                    simp only [hbf] at h
                    cases h
                | some ns =>
                    simp only [hbf, Option.some.injEq] at h
                    subst h
                    obtain ⟨hwf, _⟩ :=
                      loadTreeFiltered_wf ds.db p fuel rootIds st hlf
                    obtain ⟨_, _, hgood⟩ :=
                      buildForest_good st.mapper hwf fuel rootIds ns hbf
                    refine ⟨Nat.le_refl _, ?_⟩
                    intro n hn n' hn'
                    exact ((hgood n hn n' hn').1).ge
        | none =>
            rw [hpred] at h
            cases h
            refine ⟨Nat.le_refl _, ?_⟩
            intro n hn n' hn'
            obtain ⟨r, hr, rfl⟩ := List.mem_map.mp hn
            rw [leafAll] at hn'
            simp at hn'
            subst hn'
            show (0 : Nat) ≤ _
            exact Nat.zero_le _
      · -- flat page branch
        cases h
        refine ⟨Nat.le_refl _, ?_⟩
        intro n hn n' hn'
        obtain ⟨r, hr, rfl⟩ := List.mem_map.mp hn
        rw [leafAll] at hn'
        simp at hn'
        subst hn'
        show (0 : Nat) ≤ _
        exact Nat.zero_le _
  · intro ds tr page fuel root pn pid out page₂ hpar hid hkids hclen h
    rw [addRows] at h
    have hisNone : (some pn : Option GParent).isNone = false := rfl
    rw [hisNone] at h
    simp only [Bool.and_false, Bool.false_eq_true, if_false] at h
    rw [hid] at h
    cases hlm : loadModel ds tr none page (some pid) false fuel with
    | none =>
        simp only [hlm] at h
        cases h
    | some lo =>
        simp only [hlm] at h
        by_cases hemp : lo.rows.isEmpty
        · rw [if_pos hemp] at h
          have := Option.some.inj h
          rw [Prod.mk.injEq] at this
          have hflag := this.2
          rw [Prod.mk.injEq] at hflag
          exact absurd hflag.1 (by simp)
        · rw [if_neg hemp] at h
          have hpair := Option.some.inj h
          rw [Prod.mk.injEq] at hpair
          obtain ⟨hout, _⟩ := hpair
          have hlen : lo.rows = [] ∨ lo.rows.length = childCount ds.db pid :=
            loadModel_lazy_rows ds tr page fuel pid lo hpar hlm
          have hlen' : lo.rows.length = childCount ds.db pid := by
            rcases hlen with hnil | hl
            · rw [hnil] at hemp
              simp at hemp
            · exact hl
          have hkidslen : out.kids.length = out.clen := by
            rw [← hout]
            simp only [hpar, Bool.not_false, Bool.and_self, if_true]
            simp [hkids, hclen, hlen']
          exact ⟨hkidslen, by simp [is_children_loaded, hkidslen]⟩
  · -- non-tree root pagination: children_len += 1 per appended row
    intro ds tr pred page flat fuel root out added page₂ hnt h
    rw [addRows] at h
    rw [hnt] at h
    simp only [Bool.false_and, Bool.false_eq_true, if_false] at h
    cases hgl : root.kids.getLast? with
    | none =>
        simp only [hgl] at h
        cases h
    | some lastK =>
        simp only [hgl] at h
        cases hpl : lastK.path.getLast? with
        | none =>
            simp only [hpl] at h
            cases h
        | some lastIdx =>
            simp only [hpl] at h
            cases hlm : loadModel ds tr pred (page + 1) none flat fuel with
            | none =>
                simp only [hlm] at h
                cases h
            | some lo =>
                simp only [hlm] at h
                by_cases hemp : lo.rows.isEmpty
                · rw [if_pos hemp] at h
                  have hpair := Option.some.inj h
                  rw [Prod.mk.injEq] at hpair
                  obtain ⟨hout, _⟩ := hpair
                  subst hout
                  exact ⟨fun x => x, fun x => x⟩
                · rw [if_neg hemp] at h
                  have hpair := Option.some.inj h
                  rw [Prod.mk.injEq] at hpair
                  obtain ⟨hout, _⟩ := hpair
                  have hkids₂ : out.kids = root.kids
                      ++ lo.rows.enum.map (fun ir => GNode.mk ir.2.row.id
                          ir.2.clen (root.path ++ [lastIdx + 1 + ir.1])) := by
                    rw [← hout]
                  have hclen₂ : out.clen = root.clen + lo.rows.length := by
                    rw [← hout]
                  have hlen₂ : out.kids.length
                      = root.kids.length + lo.rows.length := by
                    rw [hkids₂]
                    simp [List.enum_length]
                  constructor
                  · intro hle
                    rw [hlen₂, hclen₂]
                    omega
                  · intro heq
                    rw [hlen₂, hclen₂, heq]
  · -- non-tree add_rows on an explicit parent node
    intro ds tr pred page flat fuel root pn out added page₂ hnt h
    rw [addRows] at h
    rw [show ((some pn : Option GParent).isNone) = false from rfl] at h
    simp only [Bool.and_false, Bool.false_eq_true, if_false] at h
    cases hio : pn.idOpt with
    | none =>
        simp only [hio] at h
        cases h
    | some pid =>
        simp only [hio] at h
        cases hlm : loadModel ds tr pred page (some pid) flat fuel with
        | none =>
            simp only [hlm] at h
            cases h
        | some lo =>
            simp only [hlm] at h
            by_cases hemp : lo.rows.isEmpty
            · rw [if_pos hemp] at h
              have hpair := Option.some.inj h
              rw [Prod.mk.injEq] at hpair
              obtain ⟨hout, _⟩ := hpair
              subst hout
              exact ⟨fun x => x, fun x => x⟩
            · rw [if_neg hemp] at h
              have hpair := Option.some.inj h
              rw [Prod.mk.injEq] at hpair
              obtain ⟨hout, _⟩ := hpair
              have hkids₂ : out.kids = pn.kids
                  ++ lo.rows.enum.map (fun ir => GNode.mk ir.2.row.id
                      ir.2.clen (pn.path ++ [ir.1])) := by
                rw [← hout]
              have hclen₂ : out.clen = pn.clen + lo.rows.length := by
                rw [← hout]
                show (if (ds.hasParentCol && !flat) = true then pn.clen
                  else pn.clen + lo.rows.length) = _
                rw [if_neg (by simp [hnt])]
              have hlen₂ : out.kids.length
                  = pn.kids.length + lo.rows.length := by
                rw [hkids₂]
                simp [List.enum_length]
              constructor
              · intro hle
                rw [hlen₂, hclen₂]
                omega
              · intro heq
                rw [hlen₂, hclen₂, heq]

/-- Witness for the C2 theorem: expanding `folder-1` in the `files` fixture
fully loads its three children, and paginating the fully loaded 3-row flat
root (2 of 3 rows present) keeps it fully loaded. -/
theorem node_children_len_invariant_witness :
    (dsFiles.hasParentCol = true
      ∧ (⟨some "folder-1", [3], 3, []⟩ : GParent).kids = []
      ∧ (⟨some "folder-1", [3], 3, []⟩ : GParent).clen
          = childCount dsFiles.db "folder-1"
      ∧ ∃ out page₂,
          addRows dsFiles 0 none 0 false ⟨none, [], 0, []⟩
            (some ⟨some "folder-1", [3], 3, []⟩) 20 = some (out, true, page₂)
          ∧ out.kids.length = out.clen)
    ∧ ((dsFlat3.hasParentCol && !false) = false
      ∧ (⟨none, [], 2, [⟨"1", 0, [0]⟩, ⟨"2", 0, [1]⟩]⟩ : GParent).kids.length
          = (⟨none, [], 2, [⟨"1", 0, [0]⟩, ⟨"2", 0, [1]⟩]⟩ : GParent).clen
      ∧ ∃ out added page₂,
          addRows dsFlat3 3 none 0 false
            ⟨none, [], 2, [⟨"1", 0, [0]⟩, ⟨"2", 0, [1]⟩]⟩ none 1
            = some (out, added, page₂)
          ∧ out.kids.length = out.clen) :=
  ⟨⟨rfl, rfl, rfl, _, _, rfl,
    (node_children_len_invariant.2.1 dsFiles 0 0 20 ⟨none, [], 0, []⟩
      ⟨some "folder-1", [3], 3, []⟩ "folder-1" _ _ rfl rfl rfl rfl rfl).1⟩,
   ⟨rfl, rfl, _, _, _, rfl,
    (node_children_len_invariant.2.2.1 dsFlat3 3 none 0 false 1
      ⟨none, [], 2, [⟨"1", 0, [0]⟩, ⟨"2", 0, [1]⟩]⟩ _ _ _ rfl rfl).2
      rfl⟩⟩

/-! ## C9 — paths of freshly attached siblings -/

/-- Helper: paths assigned in the `for i, row in enumerate(rows)` loop are
`g n, g (n+1), ...` in order. -/
theorem enumFrom_paths (g : Nat → List Nat) :
    ∀ (l : List LNode) (n : Nat),
    ((l.enumFrom n).map
        (fun ir => GNode.mk ir.2.row.id ir.2.clen (g ir.1))).map GNode.path
      = (List.range l.length).map (fun j => g (n + j)) := by
  intro l
  induction l with
  | nil =>
      intro n
      simp
  | cons x xs ih =>
      intro n
      simp only [List.enumFrom_cons, List.map_cons, List.length_cons,
        List.range_succ_eq_map, List.map_map]
      congr 1
      rw [← List.map_map, ← List.map_map]
      rw [ih (n + 1), List.map_map]
      apply List.map_congr_left
      intro j hj
      show g (n + 1 + j) = g (n + (j + 1))
      rw [Nat.add_assoc, Nat.add_comm 1 j]

/-- C9: siblings materialized by one `add_rows` call receive paths
`parent path + offset index`, the final components being consecutive
integers starting at the sibling count that existed before the call — for
root pagination from `rows[-1].path[-1] + 1`, for a tree-node expansion
from 0. -/
theorem add_rows_sibling_paths (ds : DataSourceM) (tr : Nat)
    (pred : Option (TRow → Bool)) (page : Nat) (flat : Bool) (fuel : Nat) :
    (∀ (root : GParent) (lastK : GNode) (out : GParent) (page₂ : Nat),
      root.kids.getLast? = some lastK →
      lastK.path.getLast? = some (root.kids.length - 1) →
      0 < root.kids.length →
      addRows ds tr pred page flat root none fuel = some (out, true, page₂) →
      ∃ newKids, out.kids = root.kids ++ newKids
        ∧ newKids.map GNode.path
          = (List.range newKids.length).map
              (fun j => root.path ++ [root.kids.length + j]))
    ∧ (∀ (root pn : GParent) (pid : String) (out : GParent) (page₂ : Nat),
      pn.idOpt = some pid → pn.kids = [] →
      addRows ds tr pred page flat root (some pn) fuel
        = some (out, true, page₂) →
      out.kids.map GNode.path
        = (List.range out.kids.length).map (fun j => pn.path ++ [j])) := by
  constructor
  · intro root lastK out page₂ hlast hpath hpos h
    rw [addRows] at h
    by_cases hisTree : (ds.hasParentCol && !flat) = true
    · rw [if_pos (by simp [hisTree])] at h
      have hpair := Option.some.inj h
      rw [Prod.mk.injEq] at hpair
      have hflag := hpair.2
      rw [Prod.mk.injEq] at hflag
      exact absurd hflag.1 (by simp)
    · rw [if_neg (by simp [hisTree])] at h
      simp only [hlast, hpath] at h
      cases hlm : loadModel ds tr pred (page + 1) none flat fuel with
      | none =>
          simp only [hlm] at h
          cases h
      | some lo =>
          simp only [hlm] at h
          by_cases hemp : lo.rows.isEmpty
          · rw [if_pos hemp] at h
            have hpair := Option.some.inj h
            rw [Prod.mk.injEq] at hpair
            have hflag := hpair.2
            rw [Prod.mk.injEq] at hflag
            exact absurd hflag.1 (by simp)
          · rw [if_neg hemp] at h
            have hpair := Option.some.inj h
            rw [Prod.mk.injEq] at hpair
            obtain ⟨hout, _⟩ := hpair
            refine ⟨lo.rows.enum.map
              (fun ir => GNode.mk ir.2.row.id ir.2.clen
                (root.path ++ [root.kids.length - 1 + 1 + ir.1])), ?_, ?_⟩
            · rw [← hout]
            · have hoff : root.kids.length - 1 + 1 = root.kids.length := by
                omega
              have := enumFrom_paths
                (fun i => root.path ++ [root.kids.length - 1 + 1 + i])
                lo.rows 0
              rw [show lo.rows.enum = lo.rows.enumFrom 0 from rfl]
              rw [List.length_map, List.enumFrom_length]
              rw [this]
              apply List.map_congr_left
              intro j hj
              rw [hoff]
              rw [Nat.zero_add]
  · intro root pn pid out page₂ hid hkids h
    rw [addRows] at h
    rw [show ((some pn : Option GParent).isNone) = false from rfl] at h
    simp only [Bool.and_false, Bool.false_eq_true, if_false] at h
    rw [hid] at h
    cases hlm : loadModel ds tr pred page (some pid) flat fuel with
    | none =>
        simp only [hlm] at h
        cases h
    | some lo =>
        simp only [hlm] at h
        by_cases hemp : lo.rows.isEmpty
        · rw [if_pos hemp] at h
          have hpair := Option.some.inj h
          rw [Prod.mk.injEq] at hpair
          have hflag := hpair.2
          rw [Prod.mk.injEq] at hflag
          exact absurd hflag.1 (by simp)
        · rw [if_neg hemp] at h
          have hpair := Option.some.inj h
          rw [Prod.mk.injEq] at hpair
          obtain ⟨hout, _⟩ := hpair
          rw [← hout]
          simp only [hkids, List.nil_append]
          have := enumFrom_paths (fun i => pn.path ++ [i]) lo.rows 0
          rw [show lo.rows.enum = lo.rows.enumFrom 0 from rfl]
          rw [List.length_map, List.enumFrom_length]
          rw [this]
          apply List.map_congr_left
          intro j hj
          rw [Nat.zero_add]

/-- Witness for the C9 theorem: paginating the 3-row table appends the third
row at path index 2, and expanding `folder-1` numbers its children from 0. -/
theorem add_rows_sibling_paths_witness :
    ((⟨none, [], 2, [⟨"1", 0, [0]⟩, ⟨"2", 0, [1]⟩]⟩ : GParent).kids.getLast?
        = some ⟨"2", 0, [1]⟩
      ∧ (⟨"2", 0, [1]⟩ : GNode).path.getLast? = some (2 - 1)
      ∧ 0 < 2
      ∧ ∃ out page₂,
          addRows dsFlat3 3 none 0 false
            ⟨none, [], 2, [⟨"1", 0, [0]⟩, ⟨"2", 0, [1]⟩]⟩ none 1
            = some (out, true, page₂)
          ∧ ∃ newKids,
              out.kids = [⟨"1", 0, [0]⟩, ⟨"2", 0, [1]⟩] ++ newKids
              ∧ newKids.map GNode.path
                = (List.range newKids.length).map (fun j => [2 + j]))
    ∧ ((⟨some "folder-1", [3], 3, []⟩ : GParent).idOpt = some "folder-1"
      ∧ (⟨some "folder-1", [3], 3, []⟩ : GParent).kids = []
      ∧ ∃ out page₂,
          addRows dsFiles 0 none 0 false ⟨none, [], 0, []⟩
            (some ⟨some "folder-1", [3], 3, []⟩) 20
            = some (out, true, page₂)
          ∧ out.kids.map GNode.path
            = (List.range out.kids.length).map (fun j => [3] ++ [j])) :=
  ⟨⟨rfl, rfl, by decide, _, _, rfl,
    (add_rows_sibling_paths dsFlat3 3 none 0 false 1).1
      ⟨none, [], 2, [⟨"1", 0, [0]⟩, ⟨"2", 0, [1]⟩]⟩ ⟨"2", 0, [1]⟩ _ _
      rfl rfl (by decide) rfl⟩,
   ⟨rfl, rfl, _, _, rfl,
    (add_rows_sibling_paths dsFiles 0 none 0 false 20).2
      ⟨none, [], 0, []⟩ ⟨some "folder-1", [3], 3, []⟩ "folder-1" _ _
      rfl rfl rfl⟩⟩

end Datagrid
